import Mathlib

/-!
# Verification of the blob-reference normalization and SAS-issuance subsystem

Shallow embedding of `src/app/routes.py` (`_normalize_blob_name`, `_strip_sas`,
`_public_blob_url`, `_sanitize_doc_urls`, `create_item`, `upsert_item`,
`download_item_pdf`, `blob_sas`) and `src/app/blobstore.py`
(`upload_bytes_and_get_sas`, `sas_url_for_blob_path`).

Strings are modelled as `List Char`.  The Python standard-library calls the
source depends on (`str.strip`, `str.split`, `str.startswith`, substring `in`,
`urllib.parse.urlsplit` / `urlunsplit`, and the `ipaddress` validation that
`urlsplit` performs on bracketed hosts) are modelled after CPython 3.11
(the interpreter version shipped with the project environment).  Machine
integers do not occur in this code path; times are modelled as integers
counting seconds, with `datetime.utcnow()` supplied as an explicit argument.
-/

namespace Ryker

/-! ## Character classes (CPython 3.11 semantics) -/

/-- WHATWG C0-control-or-space class: code points `0x00`–`0x20`.
`urlsplit` lstrips these from the URL (`_WHATWG_C0_CONTROL_OR_SPACE`). -/
def isC0OrSpace (c : Char) : Bool := c.toNat ≤ 32

/-- `_UNSAFE_URL_BYTES_TO_REMOVE = ["\t", "\r", "\n"]`: removed everywhere in
the URL by `urlsplit`. -/
def isUnsafeUrlByte (c : Char) : Bool :=
  c.toNat == 9 || c.toNat == 13 || c.toNat == 10

/-- ASCII letter: the `url[0].isascii() and url[0].isalpha()` test of
`urlsplit`'s scheme detection. -/
def isAsciiAlpha (c : Char) : Bool :=
  (65 ≤ c.toNat && c.toNat ≤ 90) || (97 ≤ c.toNat && c.toNat ≤ 122)

/-- `scheme_chars = ascii_letters + digits + '+-.'`. -/
def isSchemeChar (c : Char) : Bool :=
  isAsciiAlpha c || (48 ≤ c.toNat && c.toNat ≤ 57) ||
  c.toNat == 43 || c.toNat == 45 || c.toNat == 46

/-- `_splitnetloc` stops the authority at the first of `'/'`, `'?'`, `'#'`. -/
def isNetlocDelim (c : Char) : Bool :=
  c.toNat == 47 || c.toNat == 63 || c.toNat == 35

/-- Characters stripped by Python `str.strip()` with no argument
(code points for which `str.isspace()` holds). -/
def pyIsSpace (c : Char) : Bool :=
  let n := c.toNat
  (9 ≤ n && n ≤ 13) || (28 ≤ n && n ≤ 32) || n == 0x85 || n == 0xa0 ||
  n == 0x1680 || (0x2000 ≤ n && n ≤ 0x200a) || n == 0x2028 || n == 0x2029 ||
  n == 0x202f || n == 0x205f || n == 0x3000

/-- ASCII hexadecimal digit (`ipaddress._HEX_DIGITS` and the IPvFuture regex
class `[a-fA-F0-9]`). -/
def isHexDigit (c : Char) : Bool :=
  (48 ≤ c.toNat && c.toNat ≤ 57) || (97 ≤ c.toNat && c.toNat ≤ 102) ||
  (65 ≤ c.toNat && c.toNat ≤ 70)

/-- ASCII decimal digit (`octet_str.isascii() and octet_str.isdigit()`). -/
def isAsciiDigit (c : Char) : Bool := 48 ≤ c.toNat && c.toNat ≤ 57

/-- `str.lower()` restricted to ASCII.  `urlsplit` only lowercases a scheme
after checking every character lies in the ASCII set `scheme_chars`, so the
ASCII case table is the only part of `str.lower()` this code can reach. -/
def asciiLower (c : Char) : Char :=
  match c with
  | 'A' => 'a' | 'B' => 'b' | 'C' => 'c' | 'D' => 'd' | 'E' => 'e'
  | 'F' => 'f' | 'G' => 'g' | 'H' => 'h' | 'I' => 'i' | 'J' => 'j'
  | 'K' => 'k' | 'L' => 'l' | 'M' => 'm' | 'N' => 'n' | 'O' => 'o'
  | 'P' => 'p' | 'Q' => 'q' | 'R' => 'r' | 'S' => 's' | 'T' => 't'
  | 'U' => 'u' | 'V' => 'v' | 'W' => 'w' | 'X' => 'x' | 'Y' => 'y'
  | 'Z' => 'z'
  | c => c

/-! ## List-of-characters utilities mirroring Python string primitives -/

/-- `u.split(sep, 1)` for a single-character separator, as the pair around the
first occurrence: `some (before, after)` when `sep` occurs, else `none`. -/
def splitFirst (sep : Char) : List Char → Option (List Char × List Char)
  | [] => none
  | c :: cs =>
    if c = sep then some ([], cs)
    else (splitFirst sep cs).map fun p => (c :: p.1, p.2)

/-- `u.split(sep)` (full split) for a single-character separator.
`splitChar sep [] = [[]]`, matching Python's `"".split(sep) == ['']`. -/
def splitChar (sep : Char) : List Char → List (List Char)
  | [] => [[]]
  | c :: cs =>
    if c = sep then [] :: splitChar sep cs
    else
      match splitChar sep cs with
      | p :: ps => (c :: p) :: ps
      | [] => [[c]]

/-- `u.split(sep, 1)` for a multi-character separator: the pair around the
first occurrence of the sublist `sep`, `none` when `sep` does not occur.
Only called with nonempty separators (`".net/"`). -/
def splitSub (sep : List Char) : List Char → Option (List Char × List Char)
  | [] => if sep.isEmpty then some ([], []) else none
  | c :: cs =>
    if sep.isPrefixOf (c :: cs) then some ([], (c :: cs).drop sep.length)
    else (splitSub sep cs).map fun p => (c :: p.1, p.2)

/-- Python substring containment `sep in u` (for nonempty `sep`). -/
def containsSub (sep u : List Char) : Bool := (splitSub sep u).isSome

/-- Python `str.strip()` with no arguments: whitespace removed from both ends. -/
def pyStrip (u : List Char) : List Char :=
  (u.dropWhile pyIsSpace).rdropWhile pyIsSpace

/-! ## `ipaddress` validation (CPython 3.11), as used by `urlsplit` on
bracketed hosts.  Only validity matters to `urlsplit` (the parsed numeric
value is discarded), so these are Boolean validity checks following
`IPv4Address._parse_octet`, `IPv6Address._ip_int_from_string`,
`IPv6Address._parse_hextet` and `IPv6Address._split_scope_id`. -/

/-- Numeric value of a decimal digit string (only applied to all-digit
strings of length ≤ 3, where it matches Python `int(s, 10)`). -/
def decVal (o : List Char) : Nat := o.foldl (fun a c => a * 10 + (c.toNat - 48)) 0

/-- `IPv4Address._parse_octet`: nonempty, ASCII digits only, at most 3
characters, no leading zero (except `"0"` itself), value ≤ 255. -/
def validOctet (o : List Char) : Bool :=
  !o.isEmpty && o.all isAsciiDigit && o.length ≤ 3 &&
  (o == ['0'] || !(o.take 1 == ['0'])) && decVal o ≤ 255

/-- `IPv4Address.__init__` on a string: rejects `'/'`, then
`_ip_int_from_string`: exactly 4 octet groups split on `'.'`. -/
def isIPv4Text (s : List Char) : Bool :=
  !s.contains '/' &&
  match splitChar '.' s with
  | [a, b, c, d] => validOctet a && validOctet b && validOctet c && validOctet d
  | _ => false

/-- `IPv6Address._parse_hextet` as a validity check: hex digits only, at most
4 characters, and nonempty (the empty string passes the two explicit checks
but then fails `int('', 16)`). -/
def validHextet (h : List Char) : Bool :=
  h.all isHexDigit && h.length ≤ 4 && !h.isEmpty

/-- `IPv6Address._ip_int_from_string` as a validity check.  An IPv4-style
last group is validated with `isIPv4Text` and replaced by two (always valid)
hextet groups, which is value-irrelevant but count- and validity-faithful. -/
def ipv6AddrOk (s : List Char) : Bool :=
  if s.isEmpty then false else
  let parts0 := splitChar ':' s
  if parts0.length < 3 then false else
  let lastPart := parts0.getLastD []
  let partsO : Option (List (List Char)) :=
    if lastPart.contains '.' then
      if isIPv4Text lastPart then some (parts0.dropLast ++ [['0'], ['0']])
      else none
    else some parts0
  match partsO with
  | none => false
  | some parts =>
    if parts.length > 9 then false else
    let interior := (parts.drop 1).dropLast
    let nEmpty := (interior.filter List.isEmpty).length
    if 2 ≤ nEmpty then false else
    if nEmpty == 1 then
      let skipIdx := 1 + interior.findIdx List.isEmpty
      let headEmpty := (parts.headD ['x']).isEmpty
      let lastEmpty := (parts.getLastD ['x']).isEmpty
      let partsHi := if headEmpty then skipIdx - 1 else skipIdx
      let partsLo0 := parts.length - skipIdx - 1
      let partsLo := if lastEmpty then partsLo0 - 1 else partsLo0
      if headEmpty && !(partsHi == 0) then false else
      if lastEmpty && !(partsLo == 0) then false else
      if 8 ≤ partsHi + partsLo then false else
      (parts.take partsHi).all validHextet &&
      (parts.drop (parts.length - partsLo)).all validHextet
    else
      if !(parts.length == 8) then false else
      if (parts.headD []).isEmpty then false else
      if (parts.getLastD []).isEmpty then false else
      parts.all validHextet

/-- `IPv6Address.__init__` on a string: rejects `'/'`, splits an optional
`%scope` at the first `'%'` (scope must be nonempty and `'%'`-free), then
validates the address part. -/
def ipv6WithScopeOk (h : List Char) : Bool :=
  !h.contains '/' &&
  match splitFirst '%' h with
  | some (addr, scope) => !scope.isEmpty && !scope.contains '%' && ipv6AddrOk addr
  | none => ipv6AddrOk h

/-- The IPvFuture check `re.match(r"\Av[a-fA-F0-9]+\..+\Z", hostname)` applied
to the part after the leading `'v'`: one or more hex digits, a `'.'`, then a
nonempty remainder in which `.` matches anything except a newline. -/
def ipvFutureTailOk (rest : List Char) : Bool :=
  let hex := rest.takeWhile isHexDigit
  let after := rest.dropWhile isHexDigit
  !hex.isEmpty &&
  match after with
  | '.' :: r => !r.isEmpty && r.all (fun c => !(c.toNat == 10))
  | _ => false

/-- `urllib.parse._check_bracketed_host` as a Boolean: `true` iff the check
passes.  A host starting with `'v'` must be IPvFuture; otherwise
`ipaddress.ip_address` must succeed and yield IPv6 (a valid IPv4 text, which
can never also parse as IPv6, is rejected as "IPv4 in brackets"). -/
def checkBracketedHost (h : List Char) : Bool :=
  match h with
  | 'v' :: rest => ipvFutureTailOk rest
  | _ => if isIPv4Text h then false else ipv6WithScopeOk h

/-! ## `urllib.parse.urlsplit` / `urlunsplit` (CPython 3.11) -/

/-- The five components of `urlsplit`'s `SplitResult`. -/
structure SplitResult where
  scheme : List Char
  netloc : List Char
  path : List Char
  query : List Char
  fragment : List Char
deriving DecidableEq

/-- The lstrip of C0-controls/space followed by removal of `\t`, `\r`, `\n`
that `urlsplit` applies to its input before parsing. -/
def sanitizeUrl (u : List Char) : List Char :=
  (u.dropWhile isC0OrSpace).filter fun c => !isUnsafeUrlByte c

/-- Scheme detection of `urlsplit`: the text before the first `':'`, provided
it is nonempty, starts with an ASCII letter, and consists of scheme
characters; the scheme is lowercased.  Returns `(scheme, remainder)`;
`([], u)` when no scheme is recognised. -/
def extractScheme (u : List Char) : List Char × List Char :=
  match splitFirst ':' u with
  | some (c :: pre, rest) =>
    if isAsciiAlpha c && (c :: pre).all isSchemeChar
    then ((c :: pre).map asciiLower, rest)
    else ([], u)
  | _ => ([], u)

/-- Mismatched-bracket test of `urlsplit`:
`('[' in netloc) != (']' in netloc)` raises `ValueError`. -/
def bracketsMismatched (n : List Char) : Bool :=
  (n.contains '[' && !n.contains ']') || (n.contains ']' && !n.contains '[')

/-- `netloc.partition('[')[2].partition(']')[0]`. -/
def bracketContent (n : List Char) : List Char :=
  match splitFirst '[' n with
  | some (_, after) => after.takeWhile fun c => !(c == ']')
  | none => []

/-- The netloc-level validation `urlsplit` performs: mismatched brackets are
an error; a bracketed host must pass `_check_bracketed_host`.
(`_checknetloc` is a no-op for ASCII netlocs; its NFKC comparison for
non-ASCII netlocs depends on the Unicode normalization tables and is not
modelled — the model accepts those rare netlocs.) -/
def netlocChecksOk (n : List Char) : Bool :=
  !bracketsMismatched n &&
  (!(n.contains '[' && n.contains ']') || checkBracketedHost (bracketContent n))

/-- Authority extraction of `urlsplit`: when the remainder starts with `//`,
`_splitnetloc` takes everything up to the first `/`, `?` or `#`; the netloc
checks may fail (`none` models the raised `ValueError`). -/
def extractNetloc (u : List Char) : Option (List Char × List Char) :=
  match u with
  | c1 :: c2 :: rest =>
    if c1 = '/' ∧ c2 = '/' then
      let netloc := rest.takeWhile fun c => !isNetlocDelim c
      let rem := rest.dropWhile fun c => !isNetlocDelim c
      if netlocChecksOk netloc then some (netloc, rem) else none
    else some ([], u)
  | _ => some ([], u)

/-- Fragment split: `if '#' in url: url, fragment = url.split('#', 1)`. -/
def splitHash (u : List Char) : List Char × List Char :=
  match splitFirst '#' u with
  | some ab => ab
  | none => (u, [])

/-- Query split: `if '?' in url: url, query = url.split('?', 1)`. -/
def splitQuery (u : List Char) : List Char × List Char :=
  match splitFirst '?' u with
  | some ab => ab
  | none => (u, [])

/-- `urllib.parse.urlsplit` (3.11, `allow_fragments=True`); `none` models a
raised `ValueError`. -/
def urlsplit (url : List Char) : Option SplitResult :=
  let u1 := sanitizeUrl url
  let sr := extractScheme u1
  match extractNetloc sr.2 with
  | none => none
  | some (netloc, u3) =>
    let fq := splitHash u3
    let pq := splitQuery fq.1
    some ⟨sr.1, netloc, pq.1, pq.2, fq.2⟩

/-- `urllib.parse.uses_netloc` (3.11). -/
def usesNetloc : List (List Char) :=
  [[], 'f' :: 't' :: 'p' :: [], ('h' :: 't' :: 't' :: 'p' :: []),
   ('g' :: 'o' :: 'p' :: 'h' :: 'e' :: 'r' :: []),
   ('n' :: 'n' :: 't' :: 'p' :: []),
   ('t' :: 'e' :: 'l' :: 'n' :: 'e' :: 't' :: []),
   ('i' :: 'm' :: 'a' :: 'p' :: []),
   ('w' :: 'a' :: 'i' :: 's' :: []),
   ('f' :: 'i' :: 'l' :: 'e' :: []),
   ('m' :: 'm' :: 's' :: []),
   ('h' :: 't' :: 't' :: 'p' :: 's' :: []),
   ('s' :: 'h' :: 't' :: 't' :: 'p' :: []),
   ('s' :: 'n' :: 'e' :: 'w' :: 's' :: []),
   ('p' :: 'r' :: 'o' :: 's' :: 'p' :: 'e' :: 'r' :: 'o' :: []),
   ('r' :: 't' :: 's' :: 'p' :: []),
   ('r' :: 't' :: 's' :: 'p' :: 's' :: []),
   ('r' :: 't' :: 's' :: 'p' :: 'u' :: []),
   ('r' :: 's' :: 'y' :: 'n' :: 'c' :: []),
   ('s' :: 'v' :: 'n' :: []),
   ('s' :: 'v' :: 'n' :: '+' :: 's' :: 's' :: 'h' :: []),
   ('s' :: 'f' :: 't' :: 'p' :: []),
   ('n' :: 'f' :: 's' :: []),
   ('g' :: 'i' :: 't' :: []),
   ('g' :: 'i' :: 't' :: '+' :: 's' :: 's' :: 'h' :: []),
   ('w' :: 's' :: []),
   ('w' :: 's' :: 's' :: [])]

/-- `urllib.parse.urlunsplit` (3.11).  The authority marker `//` is emitted
when a netloc is present, or when the scheme is a known netloc-using scheme
and the path does not already begin with `//`. -/
def urlunsplit (scheme netloc path query fragment : List Char) : List Char :=
  let url :=
    if !netloc.isEmpty ||
       (!scheme.isEmpty && usesNetloc.contains scheme && !(path.take 2 == ['/', '/'])) then
      '/' :: '/' :: (netloc ++
        (if !path.isEmpty && !(path.take 1 == ['/']) then '/' :: path else path))
    else path
  let url := if !scheme.isEmpty then scheme ++ ':' :: url else url
  let url := if !query.isEmpty then url ++ '?' :: query else url
  if !fragment.isEmpty then url ++ '#' :: fragment else url

/-! ## The repository's URL helpers (`src/app/routes.py`) -/

/-- Configuration strings used by the helpers (fields named as in
`src/app/settings.py`; the other `Settings` fields do not reach this core). -/
structure Settings where
  BLOB_ACCOUNT : List Char
  BLOB_CONTAINER : List Char
deriving DecidableEq

/-- `_strip_sas` (routes.py): remove any query/fragment from a blob URL.
`none` models the `ValueError` that `urlsplit` can raise. -/
def stripSas (url : List Char) : Option (List Char) :=
  if url.isEmpty then some url
  else (urlsplit url).map fun r => urlunsplit r.scheme r.netloc r.path [] []

end Ryker

namespace Ryker

/-! ## `_normalize_blob_name` and `_public_blob_url` (routes.py) -/

/-- The substring `"://" + s.BLOB_ACCOUNT + ".blob.core.windows.net/"` that
`_normalize_blob_name` looks for. -/
def hostMarker (s : Settings) : List Char :=
  ':' :: '/' :: '/' :: (s.BLOB_ACCOUNT ++ (".blob.core.windows.net/").data)

/-- The URL branch of `_normalize_blob_name` applied to the query-stripped
path: container-prefixed paths lose the prefix, otherwise everything after
the first `'/'` is taken; `none` models the `IndexError` (no `'/'`) that the
`except` swallows. -/
def urlPathToName (s : Settings) (path : List Char) : Option (List Char) :=
  if (s.BLOB_CONTAINER ++ ['/']).isPrefixOf path then
    some (path.drop (s.BLOB_CONTAINER.length + 1))
  else (splitFirst '/' path).map fun p => p.2

/-- `_normalize_blob_name` (routes.py).  Strips the value, tries the
full-URL branch when the account-host marker occurs anywhere in the value
(splitting at the first `".net/"` and truncating at the first `'?'`), and
otherwise falls back to stripping a `container + "/"` prefix or returning the
value whole.  Any exception in the URL branch falls through to the fallback. -/
def normalizeBlobName (s : Settings) (value : List Char) : List Char :=
  let v := pyStrip value
  let viaUrl : Option (List Char) :=
    if containsSub (hostMarker s) v then
      (splitSub (".net/").data v).bind fun pr =>
        urlPathToName s (pr.2.takeWhile fun c => !(c == '?'))
    else none
  match viaUrl with
  | some r => r
  | none =>
    if (s.BLOB_CONTAINER ++ ['/']).isPrefixOf v then
      v.drop (s.BLOB_CONTAINER.length + 1)
    else v

/-- Both call sites of `_normalize_blob_name` (`blob_sas`, the batch-zip
loop) address the blob inside the configured container `s.BLOB_CONTAINER`,
so the `(containerName, objectName)` pair the spec's `normalize` returns is
realised in the code as this pair. -/
def normalizePair (s : Settings) (value : List Char) : List Char × List Char :=
  (s.BLOB_CONTAINER, normalizeBlobName s value)

/-- `_public_blob_url` (routes.py): full URLs are SAS-stripped, other values
are container-prefixed if needed and appended to the account host.  `none`
models a `ValueError` escaping from `_strip_sas`. -/
def publicBlobUrl (s : Settings) (blobPathOrName : List Char) : Option (List Char) :=
  let v := pyStrip blobPathOrName
  if ("http://").data.isPrefixOf v || ("https://").data.isPrefixOf v then
    stripSas v
  else
    let v := if !(s.BLOB_CONTAINER ++ ['/']).isPrefixOf v
             then s.BLOB_CONTAINER ++ '/' :: v else v
    some (("https://").data ++ s.BLOB_ACCOUNT ++ (".blob.core.windows.net/").data ++ v)

/-! ## Documents and `_sanitize_doc_urls` (routes.py)

A Cosmos document is modelled as its `blobPath` and `fileUrl` fields plus an
opaque association list `rest` for every other key.  `fileUrl` can hold a
non-string JSON value (`_sanitize_doc_urls` tests `isinstance(fu, str)`), of
which this code only ever observes truthiness.  `blobPath` is modelled as an
optional string: every write of that field in this codebase stores a string. -/

/-- A JSON value as far as this code observes it: a string, or a non-string
value of which only the truthiness is used. -/
inductive PyVal where
  | vstr (s : List Char)
  | vother (truthy : Bool)
deriving DecidableEq

/-- Python truthiness of an optional field value. -/
def truthyVal : Option PyVal → Bool
  | some (.vstr l) => !l.isEmpty
  | some (.vother t) => t
  | none => false

structure Doc where
  blobPath : Option (List Char)
  fileUrl : Option PyVal
  rest : List (List Char × PyVal)
deriving DecidableEq

/-- The `elif bp_:` arm of `_sanitize_doc_urls`: rebuild `fileUrl` from a
truthy `blobPath`; otherwise leave the document unchanged. -/
def sanitizeFromBlobPath (s : Settings) (doc : Doc) : Option Doc :=
  match doc.blobPath with
  | some bp =>
    if !bp.isEmpty then
      (publicBlobUrl s bp).map fun u => { doc with fileUrl := some (.vstr u) }
    else some doc
  | none => some doc

/-- `_sanitize_doc_urls` (routes.py): a nonempty string `fileUrl` is
SAS-stripped in place; otherwise a truthy `blobPath` is turned into a public
URL.  `none` models an escaping `ValueError`. -/
def sanitizeDocUrls (s : Settings) (doc : Doc) : Option Doc :=
  match doc.fileUrl with
  | some (.vstr l) =>
    if !l.isEmpty then
      (stripSas l).map fun l' => { doc with fileUrl := some (.vstr l') }
    else sanitizeFromBlobPath s doc
  | _ => sanitizeFromBlobPath s doc

/-! ## `create_item` / `upsert_item` URL normalization (routes.py) -/

/-- The JSON branch of `create_item`, lines 214–221: the document as passed
to `container().create_item` (i.e. the persisted record).  An incoming
string `fileUrl` is SAS-stripped; otherwise a truthy `blobPath` is expanded
to a public URL. -/
def createItemJsonPersisted (s : Settings) (body : Doc) : Option Doc :=
  match body.fileUrl with
  | some (.vstr l) => (stripSas l).map fun l' => { body with fileUrl := some (.vstr l') }
  | _ =>
    match body.blobPath with
    | some bp =>
      if !bp.isEmpty then
        (publicBlobUrl s bp).map fun u => { body with fileUrl := some (.vstr u) }
      else some body
    | none => some body

/-- `blob_name = f"{form['pk']}/{form['id']}-{suffix}.pdf"` in the multipart
branch of `create_item`. -/
def multipartBlobName (pk idv suffix : List Char) : List Char :=
  pk ++ '/' :: (idv ++ '-' :: (suffix ++ (".pdf").data))

/-- The multipart-with-file branch of `create_item`: the persisted document
carries `blobPath = container/blobName` and a public `fileUrl` built from it
(`suffix` stands for the hex uuid fragment generated per upload). -/
def createItemMultipartPersisted (s : Settings) (form : Doc)
    (pk idv suffix : List Char) : Option Doc :=
  let bpath := s.BLOB_CONTAINER ++ '/' :: multipartBlobName pk idv suffix
  (publicBlobUrl s bpath).map fun u =>
    { form with blobPath := some bpath, fileUrl := some (.vstr u) }

/-- `upsert_item` (routes.py), lines 233–247: the body normalization followed
by the merge with any existing document; the result is the document passed to
`replace_item` / `create_item` (i.e. the persisted record). -/
def upsertItemPersisted (s : Settings) (body : Doc) (existing : Option Doc) :
    Option Doc :=
  let body1? : Option Doc :=
    match body.fileUrl with
    | some (.vstr l) => (stripSas l).map fun l' => { body with fileUrl := some (.vstr l') }
    | _ =>
      match body.blobPath with
      | some bp =>
        if !bp.isEmpty && !truthyVal body.fileUrl then
          (publicBlobUrl s bp).map fun u => { body with fileUrl := some (.vstr u) }
        else some body
      | none => some body
  body1?.bind fun body1 =>
    match existing with
    | some ex =>
      match body1.blobPath, ex.blobPath with
      | none, some exbp =>
        match body1.fileUrl with
        | none => (publicBlobUrl s exbp).map fun u =>
            { body1 with blobPath := some exbp, fileUrl := some (.vstr u) }
        | some _ => some { body1 with blobPath := some exbp }
      | _, _ => some body1
    | none => some body1

/-! ## `download_item_pdf` (routes.py) -/

/-- The HTTP outcome of `download_item_pdf`, up to response bodies. -/
inductive DownloadResult where
  /-- 404 `{"error": "Not found"}` (item read failed). -/
  | itemNotFound
  /-- 404 `{"error": "No PDF attached"}`. -/
  | noPdfAttached
  /-- 500 `{"error": "No blobPath and could not parse fileUrl"}` (the
  `except` around the derive-and-persist block). -/
  | deriveFailed
  /-- An exception escaping the route (e.g. `ValueError` out of
  `_public_blob_url`): a generic 500. -/
  | unhandled
  /-- 302 redirect to the given public URL. -/
  | redirect302 (url : List Char)
deriving DecidableEq

/-- `download_item_pdf` after a successful document read, with the outcome of
the `container().replace_item` cache-fill write supplied as `persistOk`
(`false` = the write raises).  Faithful to lines 272–291: the persist happens
inside the same `try` as the parse, so a failing write takes the
`deriveFailed` branch even when the parse succeeded. -/
def downloadItemPdf (s : Settings) (doc : Doc) (persistOk : Bool) : DownloadResult :=
  match doc.blobPath with
  | some bp =>
    if !bp.isEmpty then
      match publicBlobUrl s bp with
      | some url => .redirect302 url
      | none => .unhandled
    else downloadDerive s doc persistOk
  | none => downloadDerive s doc persistOk
where
  /-- The `if not blob_path:` block: derive the path from `fileUrl`, persist
  it, then redirect to the public URL built from the derived path. -/
  downloadDerive (s : Settings) (doc : Doc) (persistOk : Bool) : DownloadResult :=
    if !truthyVal doc.fileUrl then .noPdfAttached
    else
      match doc.fileUrl with
      | some (.vstr l) =>
        match splitSub (".net/").data l with
        | none => .deriveFailed
        | some pr =>
          let path := pr.2.takeWhile fun c => !(c == '?')
          if persistOk then
            match publicBlobUrl s path with
            | some url => .redirect302 url
            | none => .unhandled
          else .deriveFailed
      | _ => .deriveFailed

/-! ## SAS parameter construction (routes.py `blob_sas`,
blobstore.py `upload_bytes_and_get_sas` / `sas_url_for_blob_path`) -/

/-- `azure.storage.blob.BlobSasPermissions` restricted to the flags this
code could set; every call passes `BlobSasPermissions(read=True)`, whose
remaining keyword flags default to `False`. -/
structure BlobSasPermissions where
  read : Bool
  write : Bool
  delete : Bool
deriving DecidableEq

/-- The argument set passed to `generate_blob_sas`, plus the validity window
(`start`/`expiry` in seconds; `datetime.utcnow()` resp. `datetime.now(utc)`
is passed in as `now1`/`now2` for the two separate clock reads). -/
structure SasParams where
  account_name : List Char
  container_name : List Char
  blob_name : List Char
  permission : BlobSasPermissions
  start : Int
  expiry : Int
  content_disposition : Option (List Char)
  content_type : Option (List Char)
deriving DecidableEq

/-- `/blob/sas` (routes.py `blob_sas`): the `generate_blob_sas` argument set.
`pathArg` is the `path` query parameter (`none` or empty → 400, modelled as
`none`); `hoursArg` is `int(hours_raw) if hours_raw else 1` with any parse
failure already collapsed to the default 1; `contentTypeArg`/`filenameArg`
model the optional query parameters (`""` is falsy and takes the default). -/
def blobSas (s : Settings) (pathArg : Option (List Char))
    (filenameArg : Option (List Char)) (att : Bool) (hoursArg : Option Int)
    (contentTypeArg : Option (List Char)) (now1 now2 : Int) : Option SasParams :=
  match pathArg with
  | none => none
  | some p =>
    if p.isEmpty then none else
    let contentType := match contentTypeArg with
      | some ct => if ct.isEmpty then ("application/octet-stream").data else ct
      | none => ("application/octet-stream").data
    let hours := hoursArg.getD 1
    let blobName := normalizeBlobName s p
    let dispName := match filenameArg with
      | some f => if f.isEmpty then (splitChar '/' blobName).getLastD [] else f
      | none => (splitChar '/' blobName).getLastD []
    let disp := (if att then ("attachment; filename=\"").data
                 else ("inline; filename=\"").data) ++ dispName ++ ['"']
    some {
      account_name := s.BLOB_ACCOUNT
      container_name := s.BLOB_CONTAINER
      blob_name := blobName
      permission := { read := true, write := false, delete := false }
      start := now1 - 5 * 60
      expiry := now2 + hours * 3600
      content_disposition := some disp
      content_type := some contentType }

/-- `upload_bytes_and_get_sas` (blobstore.py): the `generate_blob_sas`
argument set of the post-upload SAS.  `ttlMinutes` stands for
`settings.BLOB_SAS_TTL_MINUTES` (note: that attribute does not exist on the
`Settings` class in settings.py, so this helper would in fact raise before
signing; the model captures the argument set as written). -/
def uploadBytesAndGetSas (s : Settings) (blobName : List Char)
    (contentType : List Char) (downloadName : Option (List Char))
    (ttlMinutes : Int) (now1 now2 : Int) : SasParams :=
  let disp := match downloadName with
    | some n => if n.isEmpty then none
                else some (("inline; filename=\"").data ++ n ++ ['"'])
    | none => none
  { account_name := s.BLOB_ACCOUNT
    container_name := s.BLOB_CONTAINER
    blob_name := blobName
    permission := { read := true, write := false, delete := false }
    start := now1 - 60
    expiry := now2 + ttlMinutes * 60
    content_disposition := disp
    content_type := some contentType }

/-- `sas_url_for_blob_path` (blobstore.py): splits `blob_path` at the first
`'/'` (`none` models the re-raised `ValueError` when there is none) and
builds the `generate_blob_sas` argument set.  `ttlMinutes` as above. -/
def sasUrlForBlobPath (s : Settings) (blobPath : List Char)
    (contentType : Option (List Char)) (downloadName : Option (List Char))
    (ttlMinutes : Int) (now1 now2 : Int) : Option SasParams :=
  match splitFirst '/' blobPath with
  | none => none
  | some (containerName, blobName) =>
    let disp := match downloadName with
      | some n => if n.isEmpty then none
                  else some (("inline; filename=\"").data ++ n ++ ['"'])
      | none => none
    some {
      account_name := s.BLOB_ACCOUNT
      container_name := containerName
      blob_name := blobName
      permission := { read := true, write := false, delete := false }
      start := now1 - 60
      expiry := now2 + ttlMinutes * 60
      content_disposition := disp
      content_type := contentType }

/-! ## Concrete configuration used by the spec's scenarios -/

/-- The configuration of the spec's scenario table:
account `acct`, container `files`. -/
def testS : Settings := { BLOB_ACCOUNT := ("acct").data, BLOB_CONTAINER := ("files").data }

end Ryker

namespace Ryker

/-! ## Validity predicates used in the claim statements -/

/-- Lowercase ASCII letter or digit: the character set of an Azure storage
account name. -/
def isLowerAlnum (c : Char) : Bool :=
  (97 ≤ c.toNat && c.toNat ≤ 122) || (48 ≤ c.toNat && c.toNat ≤ 57)

/-- A syntactically valid storage-account name: nonempty, lowercase
alphanumeric. -/
def validAccountName (a : List Char) : Bool := !a.isEmpty && a.all isLowerAlnum

/-- Container-name characters: lowercase alphanumerics and `'-'`. -/
def isContainerChar (c : Char) : Bool := isLowerAlnum c || c.toNat == 45

/-- A syntactically valid container name: nonempty, lowercase
alphanumerics and hyphens. -/
def validContainerName (c : List Char) : Bool := !c.isEmpty && c.all isContainerChar

/-- Configuration whose account and container names are syntactically valid
Azure names. -/
def wellFormedSettings (s : Settings) : Bool :=
  validAccountName s.BLOB_ACCOUNT && validContainerName s.BLOB_CONTAINER

/-- A valid stored object name: nonempty, free of `'?'` (a name containing
`'?'` cannot survive the query-stripping in `_normalize_blob_name`), and not
ending in Python whitespace (which `str.strip()` would remove). -/
def validObjectName (n : List Char) : Bool :=
  !n.isEmpty && !n.contains '?' && !pyIsSpace (n.getLastD ' ')

/-- The inputs on which `_strip_sas` is not idempotent: those parsing to an
empty authority whose path begins with `//` (e.g. `http://////w`). -/
def degenerateSlashes (u : List Char) : Bool :=
  match urlsplit u with
  | some r => r.netloc.isEmpty && r.path.take 2 == ['/', '/']
  | none => false

/-- The SAS-free condition on a document: if `fileUrl` holds a string, that
string has no query part (hence carries no `sig=` token). -/
def fileUrlNoQuery (d : Doc) : Bool :=
  match d.fileUrl with
  | some (.vstr l) => !l.contains '?'
  | _ => true

end Ryker

namespace Ryker

/-! ## Derived definitions used in the claim statements -/

/-- What a scheme produced by `extractScheme` looks like. -/
def SchemeOK (sch : List Char) : Prop :=
  sch.all isSchemeChar = true ∧ sch.map asciiLower = sch ∧
  ∀ c t, sch = c :: t → isAsciiAlpha c = true

/-- Read-only permission set, as every signing call passes it. -/
def readOnlyPerm : BlobSasPermissions := { read := true, write := false, delete := false }
end Ryker

namespace Ryker

-- TEMP sanity checks against CPython 3.11 ground truth
example : stripSas ("http://////w".data) = some ("http:////w".data) := by decide
example : stripSas ("http:////w".data) = some ("http://w".data) := by decide
example : stripSas ("http://w".data) = some ("http://w".data) := by decide
example : stripSas ("http:a".data) = some ("http:///a".data) := by decide
example : stripSas ("HTTP://X?q#f".data) = some ("http://X".data) := by decide
example : stripSas ("https://acct.blob.core.windows.net/files/2024/a.pdf?sig=xyz".data)
    = some ("https://acct.blob.core.windows.net/files/2024/a.pdf".data) := by decide
example : stripSas ("a ?q".data) = some ("a ".data) := by decide
example : stripSas ("  x?q".data) = some ("x".data) := by decide
example : stripSas ("//".data) = some ([]) := by decide
example : stripSas ("http:".data) = some ("http://".data) := by decide
example : stripSas ("ftp://bad".data) = some ("ftp://bad".data) := by decide
example : stripSas [] = some [] := by decide
example : stripSas ("mailto:a@b?x".data) = some ("mailto:a@b".data) := by decide
example : stripSas ("foo:////x".data) = some ("foo://x".data) := by decide
example : stripSas ("////x".data) = some ("//x".data) := by decide
example : stripSas ("http://u:p@h/x?q".data) = some ("http://u:p@h/x".data) := by decide

end Ryker

namespace Ryker

-- TEMP sanity checks for normalizeBlobName / publicBlobUrl
example : normalizeBlobName testS ("https://acct.blob.core.windows.net/files/2024/a.pdf?sig=xyz").data
    = ("2024/a.pdf").data := by decide
example : normalizeBlobName testS ("files/2024/a.pdf").data = ("2024/a.pdf").data := by decide
example : normalizeBlobName testS ("2024/a.pdf").data = ("2024/a.pdf").data := by decide
example : normalizeBlobName testS [] = [] := by decide
example : normalizeBlobName testS ("ftp://bad").data = ("ftp://bad").data := by decide
example : normalizeBlobName testS ("http://example.com/a.pdf").data
    = ("http://example.com/a.pdf").data := by decide
example : normalizeBlobName testS ("https://acct.blob.core.windows.net/files/a.pdf#frag").data
    = ("a.pdf#frag").data := by decide
example : normalizeBlobName testS ("https://acct.blob.core.windows.net/other/x/y.pdf").data
    = ("x/y.pdf").data := by decide
example : normalizeBlobName testS ("https://acct.blob.core.windows.net/plain").data
    = ("https://acct.blob.core.windows.net/plain").data := by decide
example : normalizeBlobName testS ("  files/sp.pdf  ").data = ("sp.pdf").data := by decide
example : publicBlobUrl testS ("files/dir/file.pdf").data
    = some ("https://acct.blob.core.windows.net/files/dir/file.pdf").data := by decide
example : publicBlobUrl testS ("dir/file.pdf").data
    = some ("https://acct.blob.core.windows.net/files/dir/file.pdf").data := by decide
example : publicBlobUrl testS ("https://x.com/a?sig=1").data
    = some ("https://x.com/a").data := by decide
example : publicBlobUrl testS ("files/x?sig=abc").data
    = some ("https://acct.blob.core.windows.net/files/x?sig=abc").data := by decide

end Ryker

namespace Ryker

/-! ## Basic lemmas about the string primitives -/

theorem isPrefixOf_iff_ex {a b : List Char} :
    a.isPrefixOf b = true ↔ ∃ t, b = a ++ t := by
  induction a generalizing b with
  | nil => simp [List.isPrefixOf]
  | cons c cs ih =>
    cases b with
    | nil => simp [List.isPrefixOf]
    | cons d ds =>
      simp only [List.isPrefixOf, Bool.and_eq_true, beq_iff_eq, ih, List.cons_append,
        List.cons.injEq]
      constructor
      · rintro ⟨rfl, t, rfl⟩; exact ⟨t, rfl, rfl⟩
      · rintro ⟨t, rfl, rfl⟩; exact ⟨rfl, t, rfl⟩

theorem isPrefixOf_append (a t : List Char) : a.isPrefixOf (a ++ t) = true :=
  isPrefixOf_iff_ex.mpr ⟨t, rfl⟩

theorem splitFirst_some {sep : Char} {u a b : List Char}
    (h : splitFirst sep u = some (a, b)) : u = a ++ sep :: b ∧ sep ∉ a := by
  induction u generalizing a b with
  | nil => simp [splitFirst] at h
  | cons c cs ih =>
    by_cases hc : c = sep
    · subst hc
      simp [splitFirst] at h
      obtain ⟨rfl, rfl⟩ := h
      simp
    · simp [splitFirst, hc] at h
      obtain ⟨a', hsp, ha⟩ := h
      obtain ⟨rfl, hna⟩ := ih hsp
      refine ⟨?_, ?_⟩
      · rw [← ha]; simp
      · intro hm
        rw [← ha] at hm
        rcases List.mem_cons.mp hm with rfl | hm2
        · exact hc rfl
        · exact hna hm2

theorem splitFirst_append {sep : Char} {a : List Char} (b : List Char)
    (ha : sep ∉ a) : splitFirst sep (a ++ sep :: b) = some (a, b) := by
  induction a with
  | nil => simp [splitFirst]
  | cons c cs ih =>
    have hc : ¬ c = sep := fun e => ha (e ▸ List.mem_cons_self c cs)
    have ih' := ih fun m => ha (List.mem_cons_of_mem c m)
    simp [splitFirst, hc, ih']

theorem splitFirst_none {sep : Char} {u : List Char} (h : sep ∉ u) :
    splitFirst sep u = none := by
  induction u with
  | nil => rfl
  | cons c cs ih =>
    have hc : ¬ c = sep := fun e => h (e ▸ List.mem_cons_self c cs)
    have ih' := ih fun m => h (List.mem_cons_of_mem c m)
    simp [splitFirst, hc, ih']

theorem splitFirst_none_not_mem {sep : Char} {u : List Char}
    (h : splitFirst sep u = none) : sep ∉ u := by
  induction u with
  | nil => simp
  | cons c cs ih =>
    by_cases hc : c = sep
    · subst hc; simp [splitFirst] at h
    · simp [splitFirst, hc] at h
      simp only [List.mem_cons, not_or]
      exact ⟨fun e => hc e.symm, ih h⟩

theorem takeWhile_all {p : Char → Bool} {l : List Char} (h : l.all p = true) :
    l.takeWhile p = l ∧ l.dropWhile p = [] := by
  induction l with
  | nil => simp
  | cons c cs ih =>
    simp only [List.all_cons, Bool.and_eq_true] at h
    obtain ⟨h1, h2⟩ := h
    simp [List.takeWhile_cons, List.dropWhile_cons, h1, ih h2]

theorem takeWhile_append_stop {p : Char → Bool} {a b : List Char}
    (ha : a.all p = true) (hb : b = [] ∨ ∃ c t, b = c :: t ∧ p c = false) :
    (a ++ b).takeWhile p = a ∧ (a ++ b).dropWhile p = b := by
  induction a with
  | nil =>
    rcases hb with rfl | ⟨c, t, rfl, hc⟩
    · simp
    · simp [List.takeWhile_cons, List.dropWhile_cons, hc]
  | cons c cs ih =>
    simp only [List.all_cons, Bool.and_eq_true] at ha
    obtain ⟨h1, h2⟩ := ha
    have := ih h2
    simp [List.takeWhile_cons, List.dropWhile_cons, h1, this.1, this.2]

theorem dropWhile_head_false {p : Char → Bool} {l t : List Char} {c : Char}
    (h : l.dropWhile p = c :: t) : p c = false := by
  induction l with
  | nil => simp at h
  | cons d ds ih =>
    by_cases hd : p d
    · rw [List.dropWhile_cons_of_pos hd] at h; exact ih h
    · rw [List.dropWhile_cons_of_neg hd] at h
      cases h
      exact Bool.not_eq_true _ ▸ eq_false_of_ne_true hd

theorem mem_rdropWhile {p : Char → Bool} {l : List Char} {a : Char}
    (h : a ∈ l.rdropWhile p) : a ∈ l := by
  rw [List.rdropWhile] at h
  rw [List.mem_reverse] at h
  have := (List.dropWhile_sublist (l := l.reverse) p).mem h
  rwa [List.mem_reverse] at this

theorem mem_pyStrip {l : List Char} {a : Char} (h : a ∈ pyStrip l) : a ∈ l := by
  rw [pyStrip] at h
  exact (List.dropWhile_sublist _).mem (mem_rdropWhile h)

/-! ## Character-class arithmetic -/

theorem char_eq_of_toNat {c d : Char} (h : c.toNat = d.toNat) : c = d :=
  Char.ext (UInt32.ext h)

theorem char_ne_of_toNat {c d : Char} (h : c.toNat ≠ d.toNat) : c ≠ d :=
  fun e => h (by rw [e])

theorem schemeChar_facts {c : Char} (h : isSchemeChar c = true) :
    isUnsafeUrlByte c = false ∧ c ≠ ':' ∧ c ≠ '?' ∧ c ≠ '#' := by
  simp only [isSchemeChar, isAsciiAlpha, Bool.or_eq_true, Bool.and_eq_true,
    decide_eq_true_eq, beq_iff_eq] at h
  have e1 : (':' : Char).toNat = 58 := by decide
  have e2 : ('?' : Char).toNat = 63 := by decide
  have e3 : ('#' : Char).toNat = 35 := by decide
  refine ⟨?_, ?_, ?_, ?_⟩
  · simp only [isUnsafeUrlByte, Bool.or_eq_false_iff, beq_eq_false_iff_ne]
    refine ⟨⟨?_, ?_⟩, ?_⟩ <;> omega
  · exact char_ne_of_toNat (by rw [e1]; omega)
  · exact char_ne_of_toNat (by rw [e2]; omega)
  · exact char_ne_of_toNat (by rw [e3]; omega)

theorem alpha_not_c0 {c : Char} (h : isAsciiAlpha c = true) :
    isC0OrSpace c = false := by
  simp only [isAsciiAlpha, Bool.or_eq_true, Bool.and_eq_true, decide_eq_true_eq] at h
  simp only [isC0OrSpace, decide_eq_false_iff_not]
  omega

theorem unsafe_of_c0_false {c : Char} (h : isC0OrSpace c = false) :
    isUnsafeUrlByte c = false := by
  simp only [isC0OrSpace, decide_eq_false_iff_not, not_le] at h
  simp only [isUnsafeUrlByte, Bool.or_eq_false_iff, beq_eq_false_iff_ne]
  refine ⟨⟨?_, ?_⟩, ?_⟩ <;> omega

theorem not_netlocDelim_facts {c : Char} (h : isNetlocDelim c = false) :
    c ≠ '/' ∧ c ≠ '?' ∧ c ≠ '#' := by
  simp only [isNetlocDelim, Bool.or_eq_false_iff, beq_eq_false_iff_ne] at h
  obtain ⟨⟨h1, h2⟩, h3⟩ := h
  have e1 : ('/' : Char).toNat = 47 := by decide
  have e2 : ('?' : Char).toNat = 63 := by decide
  have e3 : ('#' : Char).toNat = 35 := by decide
  exact ⟨char_ne_of_toNat (by rw [e1]; omega), char_ne_of_toNat (by rw [e2]; omega),
    char_ne_of_toNat (by rw [e3]; omega)⟩

/-! ## `asciiLower` -/

theorem asciiLower_cases (c : Char) :
    asciiLower c = c ∨
    ((asciiLower c).toNat = c.toNat + 32 ∧ 65 ≤ c.toNat ∧ c.toNat ≤ 90) := by
  unfold asciiLower
  split <;> first | exact Or.inl rfl | exact Or.inr (by refine ⟨?_, ?_, ?_⟩ <;> decide)

theorem asciiLower_of_not_upper {c : Char} (h : ¬(65 ≤ c.toNat ∧ c.toNat ≤ 90)) :
    asciiLower c = c := by
  unfold asciiLower
  split <;> first | rfl | exact (h (by constructor <;> decide)).elim

theorem asciiLower_idem (c : Char) : asciiLower (asciiLower c) = asciiLower c := by
  rcases asciiLower_cases c with h | ⟨h1, h2, h3⟩
  · rw [h, h]
  · exact asciiLower_of_not_upper (by rw [h1]; omega)

theorem asciiLower_schemeChar {c : Char} (h : isSchemeChar c = true) :
    isSchemeChar (asciiLower c) = true := by
  rcases asciiLower_cases c with he | ⟨h1, h2, h3⟩
  · rwa [he]
  · simp only [isSchemeChar, isAsciiAlpha, Bool.or_eq_true, Bool.and_eq_true,
      decide_eq_true_eq, beq_iff_eq]
    omega

theorem asciiLower_alpha {c : Char} (h : isAsciiAlpha c = true) :
    isAsciiAlpha (asciiLower c) = true := by
  rcases asciiLower_cases c with he | ⟨h1, h2, h3⟩
  · rwa [he]
  · simp only [isAsciiAlpha, Bool.or_eq_true, Bool.and_eq_true, decide_eq_true_eq]
    omega

theorem asciiLower_ne_colon {c : Char} (h : isSchemeChar c = true) :
    asciiLower c ≠ ':' := by
  rcases asciiLower_cases c with he | ⟨h1, h2, h3⟩
  · rw [he]; exact (schemeChar_facts h).2.1
  · have e1 : (':' : Char).toNat = 58 := by decide
    exact char_ne_of_toNat (by rw [e1, h1]; omega)

end Ryker

namespace Ryker

/-! ## Stability lemmas for the `urlsplit` stages -/

theorem sanitizeUrl_all_safe {u : List Char} {c : Char} (h : c ∈ sanitizeUrl u) :
    isUnsafeUrlByte c = false := by
  rw [sanitizeUrl] at h
  have := List.of_mem_filter h
  simpa using this

theorem sanitizeUrl_head {u : List Char} {c : Char} {t : List Char}
    (h : sanitizeUrl u = c :: t) : isC0OrSpace c = false := by
  rw [sanitizeUrl] at h
  rcases hd : u.dropWhile isC0OrSpace with _ | ⟨d, ds⟩
  · rw [hd] at h; simp at h
  · rw [hd] at h
    have hdc : isC0OrSpace d = false := dropWhile_head_false hd
    rw [List.filter_cons_of_pos (by simp [unsafe_of_c0_false hdc])] at h
    cases h
    exact hdc

theorem sanitizeUrl_eq_self {v : List Char}
    (huns : ∀ c ∈ v, isUnsafeUrlByte c = false)
    (hhead : v = [] ∨ ∃ c t, v = c :: t ∧ isC0OrSpace c = false) :
    sanitizeUrl v = v := by
  rcases hhead with rfl | ⟨c, t, rfl, hc⟩
  · rfl
  · rw [sanitizeUrl, List.dropWhile_cons_of_neg (by simp [hc])]
    exact List.filter_eq_self.mpr fun a ha => by simp [huns a ha]

theorem schemeOK_nil : SchemeOK [] := by
  refine ⟨rfl, rfl, ?_⟩
  intro c t h; cases h

theorem schemeOK_of_map {c : Char} {pre : List Char}
    (h1 : isAsciiAlpha c = true) (h2 : (c :: pre).all isSchemeChar = true) :
    SchemeOK ((c :: pre).map asciiLower) := by
  refine ⟨?_, ?_, ?_⟩
  · rw [List.all_map]
    rw [List.all_eq_true] at h2 ⊢
    exact fun a ha => asciiLower_schemeChar (h2 a ha)
  · rw [List.map_map]
    exact List.map_congr_left fun a _ => asciiLower_idem a
  · intro d t hdt
    rw [List.map_cons] at hdt
    cases hdt
    exact asciiLower_alpha h1

theorem schemeOK_no_colon {sch : List Char} (h : SchemeOK sch) : ':' ∉ sch := by
  intro hm
  have := (List.all_eq_true.mp h.1) _ hm
  exact (schemeChar_facts this).2.1 rfl

/-- Characterization of `extractScheme`. -/
theorem extractScheme_eq {u sch r : List Char} (h : extractScheme u = (sch, r)) :
    (sch = [] ∧ r = u) ∨
    (∃ c pre, sch = (c :: pre).map asciiLower ∧ u = (c :: pre) ++ ':' :: r ∧
      isAsciiAlpha c = true ∧ (c :: pre).all isSchemeChar = true) := by
  rcases hsp : splitFirst ':' u with _ | ⟨a, b⟩
  · simp only [extractScheme, hsp] at h
    cases h
    exact Or.inl ⟨rfl, rfl⟩
  · rcases a with _ | ⟨c, pre⟩
    · simp only [extractScheme, hsp] at h
      cases h
      exact Or.inl ⟨rfl, rfl⟩
    · simp only [extractScheme, hsp] at h
      by_cases hcond : isAsciiAlpha c && (c :: pre).all isSchemeChar
      · rw [if_pos hcond] at h
        cases h
        simp only [Bool.and_eq_true] at hcond
        exact Or.inr ⟨c, pre, rfl, (splitFirst_some hsp).1, hcond.1, hcond.2⟩
      · rw [if_neg hcond] at h
        cases h
        exact Or.inl ⟨rfl, rfl⟩

/-- A scheme in `extractScheme`'s image re-extracts exactly. -/
theorem extractScheme_build {sch : List Char} (w : List Char)
    (hok : SchemeOK sch) (hne : sch ≠ []) :
    extractScheme (sch ++ ':' :: w) = (sch, w) := by
  have hsp := @splitFirst_append ':' _ w (schemeOK_no_colon hok)
  rcases sch with _ | ⟨c, t⟩
  · exact (hne rfl).elim
  · simp only [extractScheme, hsp]
    rw [if_pos]
    · rw [hok.2.1]
    · simp only [Bool.and_eq_true]
      exact ⟨hok.2.2 c t rfl, hok.1⟩

theorem extractScheme_slash (w : List Char) :
    extractScheme ('/' :: w) = ([], '/' :: w) := by
  rcases hsp : splitFirst ':' ('/' :: w) with _ | ⟨a, b⟩
  · simp only [extractScheme, hsp]
  · obtain ⟨he, _⟩ := splitFirst_some hsp
    rcases a with _ | ⟨c, pre⟩
    · exfalso
      simp only [List.nil_append] at he
      cases he
    · simp only [extractScheme, hsp]
      simp only [List.cons_append, List.cons.injEq] at he
      rw [if_neg]
      simp only [Bool.and_eq_true, not_and]
      intro hal
      rw [← he.1] at hal
      exact absurd hal (by decide)

/-- If `u` yields no scheme, neither does any prefix of `u`. -/
theorem extractScheme_of_no_scheme {u p : List Char}
    (h : (extractScheme u).1 = []) (hp : ∃ t, u = p ++ t) :
    extractScheme p = ([], p) := by
  obtain ⟨t, rfl⟩ := hp
  rcases hep : extractScheme p with ⟨sch, r⟩
  rcases extractScheme_eq hep with ⟨rfl, rfl⟩ | ⟨c, pre, hsch, hdec, h1, h2⟩
  · rfl
  · exfalso
    have hnc : ':' ∉ c :: pre := by
      intro hm
      have := (List.all_eq_true.mp h2) _ hm
      exact (schemeChar_facts this).2.1 rfl
    have hsp : splitFirst ':' ((c :: pre) ++ ':' :: (r ++ t)) = some (c :: pre, r ++ t) :=
      splitFirst_append _ hnc
    rw [hdec, List.append_assoc] at h
    simp only [List.cons_append] at h hsp
    simp only [extractScheme, hsp,
      if_pos (show (isAsciiAlpha c && (c :: pre).all isSchemeChar) = true by
        simp only [Bool.and_eq_true]; exact ⟨h1, h2⟩)] at h
    simp at h

/-- Characterization of `extractNetloc`. -/
theorem extractNetloc_eq {u nl r : List Char} (h : extractNetloc u = some (nl, r)) :
    (∃ rest, u = '/' :: '/' :: rest ∧
      nl = rest.takeWhile (fun c => !isNetlocDelim c) ∧
      r = rest.dropWhile (fun c => !isNetlocDelim c) ∧ netlocChecksOk nl = true) ∨
    ((∀ rest, u ≠ '/' :: '/' :: rest) ∧ nl = [] ∧ r = u) := by
  rcases u with _ | ⟨c1, _ | ⟨c2, rest⟩⟩
  · simp only [extractNetloc] at h
    cases h
    exact Or.inr ⟨(fun rest hr => by cases hr), rfl, rfl⟩
  · simp only [extractNetloc] at h
    cases h
    exact Or.inr ⟨(fun rest hr => by cases hr), rfl, rfl⟩
  · by_cases hss : c1 = '/' ∧ c2 = '/'
    · obtain ⟨rfl, rfl⟩ := hss
      simp only [extractNetloc, if_pos (⟨rfl, rfl⟩ : ('/' : Char) = '/' ∧ ('/' : Char) = '/')] at h
      by_cases hchk : netlocChecksOk (rest.takeWhile fun c => !isNetlocDelim c)
      · rw [if_pos hchk] at h
        cases h
        exact Or.inl ⟨rest, rfl, rfl, rfl, hchk⟩
      · rw [if_neg hchk] at h
        cases h
    · simp only [extractNetloc, if_neg hss] at h
      cases h
      refine Or.inr ⟨?_, rfl, rfl⟩
      intro rest' hr
      simp only [List.cons.injEq] at hr
      exact hss ⟨hr.1, hr.2.1⟩

theorem extractNetloc_build {nl p : List Char}
    (hnl : nl.all (fun c => !isNetlocDelim c) = true)
    (hchk : netlocChecksOk nl = true)
    (hp : p = [] ∨ ∃ c t, p = c :: t ∧ isNetlocDelim c = true) :
    extractNetloc ('/' :: '/' :: (nl ++ p)) = some (nl, p) := by
  have hstop : p = [] ∨ ∃ c t, p = c :: t ∧ (fun c => !isNetlocDelim c) c = false := by
    rcases hp with rfl | ⟨c, t, rfl, hc⟩
    · exact Or.inl rfl
    · exact Or.inr ⟨c, t, rfl, by simp [hc]⟩
  obtain ⟨htw, hdw⟩ := takeWhile_append_stop hnl hstop
  simp only [extractNetloc, htw, hdw, if_pos hchk]
  simp

theorem extractNetloc_no_slashes {u : List Char}
    (hu : ∀ rest, u ≠ '/' :: '/' :: rest) :
    extractNetloc u = some ([], u) := by
  rcases u with _ | ⟨c1, _ | ⟨c2, rest⟩⟩
  · rfl
  · rfl
  · have hss : ¬(c1 = '/' ∧ c2 = '/') := by
      rintro ⟨rfl, rfl⟩
      exact hu rest rfl
    simp only [extractNetloc, if_neg hss]

theorem netlocChecksOk_nil : netlocChecksOk [] = true := by decide

/-- The path produced by the fragment/query splits: free of `'#'`/`'?'`, and
a prefix of the input. -/
theorem path_facts (u3 : List Char) :
    ('#' ∉ (splitQuery (splitHash u3).1).1) ∧ ('?' ∉ (splitQuery (splitHash u3).1).1) ∧
    ∃ t, u3 = (splitQuery (splitHash u3).1).1 ++ t := by
  have h1 : ('#' ∉ (splitHash u3).1) ∧ ∃ t, u3 = (splitHash u3).1 ++ t := by
    rcases hsp : splitFirst '#' u3 with _ | ⟨a, b⟩
    · rw [splitHash, hsp]
      exact ⟨splitFirst_none_not_mem hsp, [], by simp⟩
    · rw [splitHash, hsp]
      obtain ⟨he, hn⟩ := splitFirst_some hsp
      exact ⟨hn, '#' :: b, he⟩
  have h2 : ('?' ∉ (splitQuery (splitHash u3).1).1) ∧
      ∃ t, (splitHash u3).1 = (splitQuery (splitHash u3).1).1 ++ t := by
    rcases hsp : splitFirst '?' (splitHash u3).1 with _ | ⟨a, b⟩
    · rw [splitQuery, hsp]
      exact ⟨splitFirst_none_not_mem hsp, [], by simp⟩
    · rw [splitQuery, hsp]
      obtain ⟨he, hn⟩ := splitFirst_some hsp
      exact ⟨hn, '?' :: b, he⟩
  obtain ⟨t2, ht2⟩ := h2.2
  obtain ⟨t1, ht1⟩ := h1.2
  refine ⟨?_, h2.1, t2 ++ t1, ?_⟩
  · intro hm
    exact h1.1 (ht2 ▸ List.mem_append_left _ hm)
  · conv_lhs => rw [ht1, ht2]
    rw [List.append_assoc]

end Ryker

namespace Ryker

/-! ## Decomposition of `urlsplit` and reconstruction stability -/

theorem urlsplit_parts {u : List Char} {r : SplitResult} (h : urlsplit u = some r) :
    ∃ u2 u3,
      extractScheme (sanitizeUrl u) = (r.scheme, u2) ∧
      extractNetloc u2 = some (r.netloc, u3) ∧
      r.path = (splitQuery (splitHash u3).1).1 ∧
      r.query = (splitQuery (splitHash u3).1).2 ∧
      r.fragment = (splitHash u3).2 := by
  simp only [urlsplit] at h
  rcases hen : extractNetloc (extractScheme (sanitizeUrl u)).2 with _ | ⟨nl, u3⟩
  · rw [hen] at h; cases h
  · rw [hen] at h
    cases h
    exact ⟨(extractScheme (sanitizeUrl u)).2, u3, rfl, hen, rfl, rfl, rfl⟩

theorem urlunsplit_nil_qf (sch nl p : List Char) :
    urlunsplit sch nl p [] [] =
      (if !sch.isEmpty then
        sch ++ ':' ::
          (if !nl.isEmpty ||
              (!sch.isEmpty && usesNetloc.contains sch && !(p.take 2 == ['/', '/'])) then
            '/' :: '/' :: (nl ++ (if !p.isEmpty && !(p.take 1 == ['/']) then '/' :: p else p))
          else p)
      else
        (if !nl.isEmpty ||
            (!sch.isEmpty && usesNetloc.contains sch && !(p.take 2 == ['/', '/'])) then
          '/' :: '/' :: (nl ++ (if !p.isEmpty && !(p.take 1 == ['/']) then '/' :: p else p))
        else p)) := by
  simp only [urlunsplit, List.isEmpty_nil, Bool.not_true, Bool.false_eq_true, if_false]

theorem mem_urlunsplit {sch nl p : List Char} {a : Char}
    (h : a ∈ urlunsplit sch nl p [] []) :
    a ∈ sch ∨ a ∈ nl ∨ a ∈ p ∨ a = '/' ∨ a = ':' := by
  rw [urlunsplit_nil_qf] at h
  split_ifs at h <;>
    (try simp only [List.mem_append, List.mem_cons, List.not_mem_nil, or_false] at h) <;>
    tauto

/-- The output of `urlunsplit` with empty query and fragment contains no
`'?'` and no `'#'` when the components do not. -/
theorem urlunsplit_no_qf {sch nl p : List Char}
    (hsch : sch.all isSchemeChar = true)
    (hnl : nl.all (fun c => !isNetlocDelim c) = true)
    (hpq : '?' ∉ p) (hph : '#' ∉ p) :
    '?' ∉ urlunsplit sch nl p [] [] ∧ '#' ∉ urlunsplit sch nl p [] [] := by
  constructor <;> intro hm <;> rcases mem_urlunsplit hm with h | h | h | h | h
  · exact (schemeChar_facts ((List.all_eq_true.mp hsch) _ h)).2.2.1 rfl
  · have := (List.all_eq_true.mp hnl) _ h
    simp only [Bool.not_eq_true'] at this
    exact (not_netlocDelim_facts this).2.1 rfl
  · exact hpq h
  · exact absurd h (by decide)
  · exact absurd h (by decide)
  · exact (schemeChar_facts ((List.all_eq_true.mp hsch) _ h)).2.2.2 rfl
  · have := (List.all_eq_true.mp hnl) _ h
    simp only [Bool.not_eq_true'] at this
    exact (not_netlocDelim_facts this).2.2 rfl
  · exact hph h
  · exact absurd h (by decide)
  · exact absurd h (by decide)

end Ryker

namespace Ryker

theorem delim_not_qf_slash {c : Char} (hd : isNetlocDelim c = true)
    (hq : c ≠ '?') (hh : c ≠ '#') : c = '/' := by
  simp only [isNetlocDelim, Bool.or_eq_true, beq_iff_eq] at hd
  have e1 : ('/' : Char).toNat = 47 := by decide
  have e2 : ('?' : Char).toNat = 63 := by decide
  have e3 : ('#' : Char).toNat = 35 := by decide
  rcases hd with (h47 | h63) | h35
  · exact char_eq_of_toNat (h47.trans e1.symm)
  · exact absurd (char_eq_of_toNat (h63.trans e2.symm)) hq
  · exact absurd (char_eq_of_toNat (h35.trans e3.symm)) hh

/-- One full `stripSas` computation, given the results of each stage and the
fact that re-assembly reproduces the input. -/
theorem stripSas_of_parse {E sch w nl u3 : List Char}
    (hne : E.isEmpty = false)
    (hsan : sanitizeUrl E = E)
    (hs : extractScheme E = (sch, w))
    (hn : extractNetloc w = some (nl, u3))
    (hh : '#' ∉ u3) (hq : '?' ∉ u3)
    (hrebuild : urlunsplit sch nl u3 [] [] = E) :
    stripSas E = some E := by
  rw [stripSas, if_neg (by simp [hne])]
  have hsplit : urlsplit E = some ⟨sch, nl, u3, [], []⟩ := by
    simp only [urlsplit, hsan, hs]
    rw [hn]
    simp only [splitHash, splitFirst_none hh, splitQuery, splitFirst_none hq]
  rw [hsplit]
  simp only [Option.map_some']
  rw [hrebuild]

theorem sanitizeUrl_scheme_colon {sch mid : List Char} {c : Char} {st : List Char}
    (hform : sch = c :: st)
    (hokS : SchemeOK sch)
    (hmid : ∀ a ∈ mid, isUnsafeUrlByte a = false) :
    sanitizeUrl (sch ++ ':' :: mid) = sch ++ ':' :: mid := by
  apply sanitizeUrl_eq_self
  · intro a ha
    rcases List.mem_append.mp ha with h1 | h2
    · exact (schemeChar_facts ((List.all_eq_true.mp hokS.1) _ h1)).1
    · rcases List.mem_cons.mp h2 with rfl | h3
      · decide
      · exact hmid a h3
  · right
    exact ⟨c, st ++ ':' :: mid, by rw [hform]; rfl, alpha_not_c0 (hokS.2.2 c st hform)⟩

theorem sanitizeUrl_slash_cons {rest : List Char}
    (hmid : ∀ a ∈ rest, isUnsafeUrlByte a = false) :
    sanitizeUrl ('/' :: rest) = '/' :: rest := by
  apply sanitizeUrl_eq_self
  · intro a ha
    rcases List.mem_cons.mp ha with rfl | h2
    · decide
    · exact hmid a h2
  · exact Or.inr ⟨'/', rest, rfl, by decide⟩

/-- Re-parsing the output of `urlunsplit` built from one pass of `urlsplit`
reproduces it, away from the degenerate empty-authority-`//`-path case. -/
theorem reconstruct_stable {sch nl p : List Char}
    (hokS : SchemeOK sch)
    (hnlall : nl.all (fun c => !isNetlocDelim c) = true)
    (hchk : netlocChecksOk nl = true)
    (hpq : '?' ∉ p) (hph : '#' ∉ p)
    (hpuns : ∀ a ∈ p, isUnsafeUrlByte a = false)
    (hnluns : ∀ a ∈ nl, isUnsafeUrlByte a = false)
    (hdeg2 : ¬(nl = [] ∧ p.take 2 = ['/', '/']))
    (hschnil : sch = [] → p = [] ∨ (∃ t, p = '/' :: t) ∨
      (∃ c t, p = c :: t ∧ isC0OrSpace c = false ∧ extractScheme p = ([], p))) :
    stripSas (urlunsplit sch nl p [] []) = some (urlunsplit sch nl p [] []) := by
  classical
  -- the path as adjusted by urlunsplit's '/'-insertion
  set pFix : List Char :=
    if !p.isEmpty && !(p.take 1 == ['/']) then '/' :: p else p with hpFix
  have hF1 : pFix = [] ∨ ∃ t, pFix = '/' :: t := by
    rcases hp : p with _ | ⟨c, t⟩
    · left; rw [hpFix, hp]; rfl
    · right
      by_cases hc : c = '/'
      · subst hc
        refine ⟨t, ?_⟩
        rw [hpFix, hp]
        simp
      · refine ⟨c :: t, ?_⟩
        rw [hpFix, hp, if_pos (by simp [hc])]
  have hF2q : '?' ∉ pFix := by
    rw [hpFix]
    split
    · simp only [List.mem_cons, not_or]
      exact ⟨by decide, hpq⟩
    · exact hpq
  have hF2h : '#' ∉ pFix := by
    rw [hpFix]
    split
    · simp only [List.mem_cons, not_or]
      exact ⟨by decide, hph⟩
    · exact hph
  have hF3 : ∀ a ∈ pFix, isUnsafeUrlByte a = false := by
    rw [hpFix]
    split
    · intro a ha
      rcases List.mem_cons.mp ha with rfl | ha2
      · decide
      · exact hpuns a ha2
    · exact hpuns
  have hF5 : (if !pFix.isEmpty && !(pFix.take 1 == ['/']) then '/' :: pFix else pFix) = pFix := by
    rcases hF1 with hf | ⟨t, hf⟩
    · rw [hf]; rfl
    · rw [hf]; simp
  have hdelimSlash : isNetlocDelim '/' = true := by decide
  have hpFixStop : pFix = [] ∨ ∃ c t, pFix = c :: t ∧ isNetlocDelim c = true := by
    rcases hF1 with hf | ⟨t, hf⟩
    · exact Or.inl hf
    · exact Or.inr ⟨'/', t, hf, hdelimSlash⟩
  have hF4eq : (pFix.take 2 == ['/', '/']) = (p.take 2 == ['/', '/']) := by
    rw [hpFix]
    clear hpFix hF1 hF2q hF2h hF3 hF5 hpFixStop hpq hph hpuns hdeg2 hschnil
    rcases p with _ | ⟨c, t⟩
    · rfl
    · by_cases hc : c = '/'
      · subst hc
        simp
      · rw [if_pos (by simp [hc])]
        rcases t with _ | ⟨d, t'⟩ <;> simp [hc]
  have hwuns : ∀ a ∈ ('/' :: '/' :: (nl ++ pFix)), isUnsafeUrlByte a = false := by
    intro a ha
    rcases List.mem_cons.mp ha with rfl | ha
    · decide
    rcases List.mem_cons.mp ha with rfl | ha
    · decide
    rcases List.mem_append.mp ha with h1 | h2
    · exact hnluns a h1
    · exact hF3 a h2
  have hnw : extractNetloc ('/' :: '/' :: (nl ++ pFix)) = some (nl, pFix) :=
    extractNetloc_build hnlall hchk hpFixStop
  by_cases hCb : (!nl.isEmpty ||
      (!sch.isEmpty && usesNetloc.contains sch && !(p.take 2 == ['/', '/']))) = true
  · -- the authority ('//') branch of urlunsplit
    have hE : urlunsplit sch nl p [] [] =
        (if !sch.isEmpty then sch ++ ':' :: ('/' :: '/' :: (nl ++ pFix))
         else '/' :: '/' :: (nl ++ pFix)) := by
      rw [urlunsplit_nil_qf, if_pos hCb, ← hpFix]
    have hrebuild : urlunsplit sch nl pFix [] [] =
        (if !sch.isEmpty then sch ++ ':' :: ('/' :: '/' :: (nl ++ pFix))
         else '/' :: '/' :: (nl ++ pFix)) := by
      rw [urlunsplit_nil_qf, hF5]
      have hC3 : (!nl.isEmpty ||
          (!sch.isEmpty && usesNetloc.contains sch && !(pFix.take 2 == ['/', '/']))) = true := by
        rw [hF4eq]; exact hCb
      rw [if_pos hC3]
    rw [hE]
    rcases hsch0 : sch with _ | ⟨c, st⟩
    · -- no scheme: the authority branch forces a nonempty netloc
      simp only [List.isEmpty_nil, Bool.not_true, Bool.false_eq_true, if_false]
      refine stripSas_of_parse ?_ ?_ (extractScheme_slash _) hnw hF2h hF2q ?_
      · rfl
      · exact sanitizeUrl_slash_cons (fun a ha => hwuns a (List.mem_cons_of_mem _ ha))
      · rw [hsch0] at hrebuild
        simpa using hrebuild
    · simp only [List.isEmpty_cons, Bool.not_false, if_true]
      rw [hsch0] at hokS hrebuild
      refine stripSas_of_parse ?_ ?_
        (extractScheme_build ('/' :: '/' :: (nl ++ pFix)) hokS (by simp))
        hnw hF2h hF2q ?_
      · rfl
      · exact sanitizeUrl_scheme_colon rfl hokS hwuns
      · simpa using hrebuild
  · -- the plain branch of urlunsplit: no authority marker emitted
    have hE : urlunsplit sch nl p [] [] = (if !sch.isEmpty then sch ++ ':' :: p else p) := by
      rw [urlunsplit_nil_qf, if_neg hCb]
    have hCfalse := eq_false_of_ne_true hCb
    have hnl0 : nl = [] := by
      rcases nl with _ | ⟨a, t⟩
      · rfl
      · simp at hCfalse
    have htake : p.take 2 ≠ ['/', '/'] := fun ht => hdeg2 ⟨hnl0, ht⟩
    have hnoss : ∀ r, p ≠ '/' :: '/' :: r := by
      intro r hr
      apply htake
      rw [hr]
      rfl
    have hnp : extractNetloc p = some ([], p) := extractNetloc_no_slashes hnoss
    have hsecond : (!sch.isEmpty && usesNetloc.contains sch &&
        !(p.take 2 == ['/', '/'])) = false := by
      rcases hor : (!sch.isEmpty && usesNetloc.contains sch && !(p.take 2 == ['/', '/'])) with _ | _
      · rfl
      · rw [hor] at hCfalse
        simp at hCfalse
    have hrebuild : urlunsplit sch [] p [] [] =
        (if !sch.isEmpty then sch ++ ':' :: p else p) := by
      rw [urlunsplit_nil_qf]
      have hC4 : ¬((!List.isEmpty ([] : List Char) ||
          (!sch.isEmpty && usesNetloc.contains sch && !(p.take 2 == ['/', '/']))) = true) := by
        rw [hsecond]
        simp
      rw [if_neg hC4]
    rw [hE]
    rcases hsch0 : sch with _ | ⟨c, st⟩
    · simp only [List.isEmpty_nil, Bool.not_true, Bool.false_eq_true, if_false]
      rcases hschnil hsch0 with rfl | ⟨t, hpv⟩ | ⟨c, t, hpv, hc0, hsp⟩
      · rfl
      · -- path starts with a single '/'
        refine stripSas_of_parse ?_ ?_
          (by rw [hpv]; exact extractScheme_slash _) hnp hph hpq ?_
        · rw [hpv]; rfl
        · rw [hpv]
          exact sanitizeUrl_slash_cons fun a ha =>
            hpuns a (hpv ▸ List.mem_cons_of_mem _ ha)
        · rw [hsch0] at hrebuild
          simpa using hrebuild
      · refine stripSas_of_parse ?_ ?_ hsp hnp hph hpq ?_
        · rw [hpv]; rfl
        · exact sanitizeUrl_eq_self hpuns (Or.inr ⟨c, t, hpv, hc0⟩)
        · rw [hsch0] at hrebuild
          simpa using hrebuild
    · simp only [List.isEmpty_cons, Bool.not_false, if_true]
      rw [hsch0] at hokS hrebuild
      refine stripSas_of_parse ?_ ?_ (extractScheme_build p hokS (by simp))
        hnp hph hpq ?_
      · rfl
      · exact sanitizeUrl_scheme_colon rfl hokS hpuns
      · simpa using hrebuild

end Ryker

namespace Ryker

/-- `_strip_sas` is stable on its own output, for every input outside the
degenerate empty-authority-`//`-path class. -/
theorem stripSas_stable {u v : List Char} (h : stripSas u = some v)
    (hdeg : degenerateSlashes u = false) : stripSas v = some v := by
  by_cases hu0 : u.isEmpty = true
  · simp only [stripSas, if_pos hu0] at h
    cases h
    simp only [stripSas, if_pos hu0]
  simp only [stripSas, if_neg hu0] at h
  rcases hr : urlsplit u with _ | r
  · rw [hr] at h; cases h
  rcases r with ⟨sch, nl, p, q, f⟩
  rw [hr] at h
  simp only [Option.map_some'] at h
  obtain rfl := Option.some.inj h
  obtain ⟨u2, u3, hsch, hnet, hpath, -, -⟩ := urlsplit_parts hr
  dsimp only at hsch hnet hpath
  have hdeg2 : ¬(nl = [] ∧ p.take 2 = ['/', '/']) := by
    simp only [degenerateSlashes, hr] at hdeg
    rintro ⟨rfl, ht⟩
    rw [ht] at hdeg
    simp at hdeg
  have hokS : SchemeOK sch := by
    rcases extractScheme_eq hsch with ⟨hs0, -⟩ | ⟨c, pre, hs1, -, h1, h2⟩
    · rw [hs0]; exact schemeOK_nil
    · rw [hs1]; exact schemeOK_of_map h1 h2
  have hmemU2 : ∀ a ∈ u2, a ∈ sanitizeUrl u := by
    rcases extractScheme_eq hsch with ⟨-, hru⟩ | ⟨c, pre, -, hdec, -, -⟩
    · intro a ha; rw [← hru]; exact ha
    · intro a ha; rw [hdec]
      exact List.mem_append_right _ (List.mem_cons_of_mem _ ha)
  have hu2uns : ∀ a ∈ u2, isUnsafeUrlByte a = false := fun a ha =>
    sanitizeUrl_all_safe (hmemU2 a ha)
  have hpp := path_facts u3
  have hph : '#' ∉ p := by rw [hpath]; exact hpp.1
  have hpq : '?' ∉ p := by rw [hpath]; exact hpp.2.1
  have hpu3 : ∃ t, u3 = p ++ t := by
    obtain ⟨t, ht⟩ := hpp.2.2
    exact ⟨t, by rw [hpath]; exact ht⟩
  rcases extractNetloc_eq hnet with ⟨rest, hu2v, hnlv, hu3v, hchk⟩ | ⟨hnoss, hnl0, hu3v⟩
  · -- an authority was parsed from `u`
    have hnlall : nl.all (fun c => !isNetlocDelim c) = true := by
      rw [hnlv]; exact List.all_takeWhile
    have hmemRest : ∀ a ∈ rest, a ∈ u2 := by
      intro a ha; rw [hu2v]
      exact List.mem_cons_of_mem _ (List.mem_cons_of_mem _ ha)
    have hnluns : ∀ a ∈ nl, isUnsafeUrlByte a = false := by
      intro a ha
      rw [hnlv] at ha
      exact hu2uns a (hmemRest a ((List.takeWhile_sublist _).mem ha))
    have hpuns : ∀ a ∈ p, isUnsafeUrlByte a = false := by
      intro a ha
      obtain ⟨t, ht⟩ := hpu3
      have ha3 : a ∈ u3 := ht ▸ List.mem_append_left _ ha
      rw [hu3v] at ha3
      exact hu2uns a (hmemRest a ((List.dropWhile_sublist _).mem ha3))
    apply reconstruct_stable hokS hnlall hchk hpq hph hpuns hnluns hdeg2
    intro _
    rcases hp : p with _ | ⟨c, t2⟩
    · exact Or.inl rfl
    · right; left
      obtain ⟨t', ht'⟩ := hpu3
      rw [hp] at ht'
      have hddd : List.dropWhile (fun c => !isNetlocDelim c) rest = c :: (t2 ++ t') := by
        rw [← hu3v]; exact ht'
      have hdel0 := dropWhile_head_false hddd
      have hdel : isNetlocDelim c = true := by simpa using hdel0
      have hcq : c ≠ '?' := fun e => hpq (by rw [hp, e]; exact List.mem_cons_self _ _)
      have hch : c ≠ '#' := fun e => hph (by rw [hp, e]; exact List.mem_cons_self _ _)
      have hcsl := delim_not_qf_slash hdel hcq hch
      exact ⟨t2, by rw [hcsl]⟩
  · -- no authority marker in `u`
    subst hnl0
    have hnlall : ([] : List Char).all (fun c => !isNetlocDelim c) = true := rfl
    have hpuns : ∀ a ∈ p, isUnsafeUrlByte a = false := by
      intro a ha
      obtain ⟨t, ht⟩ := hpu3
      have ha3 : a ∈ u3 := ht ▸ List.mem_append_left _ ha
      rw [hu3v] at ha3
      exact hu2uns a ha3
    have hnluns : ∀ a ∈ ([] : List Char), isUnsafeUrlByte a = false := by
      intro a ha; cases ha
    apply reconstruct_stable hokS hnlall netlocChecksOk_nil hpq hph hpuns hnluns hdeg2
    intro hs0
    have hru : u2 = sanitizeUrl u := by
      rcases extractScheme_eq hsch with ⟨-, h2⟩ | ⟨c, pre, hs1, -, -, -⟩
      · exact h2
      · exfalso; rw [hs0] at hs1; cases hs1
    obtain ⟨t, ht⟩ := hpu3
    rw [hu3v, hru] at ht
    rcases hp : p with _ | ⟨c, t2⟩
    · exact Or.inl rfl
    · by_cases hc : c = '/'
      · exact Or.inr (Or.inl ⟨t2, by rw [hc]⟩)
      · right; right
        rw [hp] at ht
        refine ⟨c, t2, rfl, ?_, ?_⟩
        · exact sanitizeUrl_head (by simpa using ht)
        · have hnos : (extractScheme (sanitizeUrl u)).1 = [] := by rw [hsch, hs0]
          exact extractScheme_of_no_scheme hnos ⟨t, by simpa using ht⟩

end Ryker

namespace Ryker

/-- The output of `_strip_sas` never contains `'?'` or `'#'`. -/
theorem stripSas_no_qf {u v : List Char} (h : stripSas u = some v) :
    '?' ∉ v ∧ '#' ∉ v := by
  by_cases hu0 : u.isEmpty = true
  · simp only [stripSas, if_pos hu0] at h
    cases h
    have hnil : u = [] := by rwa [List.isEmpty_iff] at hu0
    subst hnil
    exact ⟨by simp, by simp⟩
  simp only [stripSas, if_neg hu0] at h
  rcases hr : urlsplit u with _ | r
  · rw [hr] at h; cases h
  rcases r with ⟨sch, nl, p, q, f⟩
  rw [hr] at h
  simp only [Option.map_some'] at h
  obtain rfl := Option.some.inj h
  obtain ⟨u2, u3, hsch, hnet, hpath, -, -⟩ := urlsplit_parts hr
  dsimp only at hsch hnet hpath
  have hokS : SchemeOK sch := by
    rcases extractScheme_eq hsch with ⟨hs0, -⟩ | ⟨c, pre, hs1, -, h1, h2⟩
    · rw [hs0]; exact schemeOK_nil
    · rw [hs1]; exact schemeOK_of_map h1 h2
  have hpp := path_facts u3
  have hph : '#' ∉ p := by rw [hpath]; exact hpp.1
  have hpq : '?' ∉ p := by rw [hpath]; exact hpp.2.1
  have hnlall : nl.all (fun c => !isNetlocDelim c) = true := by
    rcases extractNetloc_eq hnet with ⟨rest, -, hnlv, -, -⟩ | ⟨-, hnl0, -⟩
    · rw [hnlv]; exact List.all_takeWhile
    · rw [hnl0]; rfl
  exact urlunsplit_no_qf hokS.1 hnlall hpq hph

/-- **C5** (amended).  `stripToken` (= `_strip_sas`) output never carries a
query or fragment component (no `'?'` and no `'#'` occurs in it), and
`stripToken` is idempotent on every input outside the degenerate class of
strings that parse to an empty authority followed by a path starting `//`
(`degenerateSlashes`); on that class a second application can strip further
slash pairs (see the counterexample). -/
theorem c5_stripToken_idempotent_tokenFree (u v : List Char)
    (h : stripSas u = some v) :
    (degenerateSlashes u = false → stripSas v = some v) ∧ '?' ∉ v ∧ '#' ∉ v :=
  ⟨fun hdeg => stripSas_stable h hdeg, (stripSas_no_qf h).1, (stripSas_no_qf h).2⟩

/-- **C5** counterexample: on `"http://////w"` (empty authority, path
`"////w"`) `stripToken` is not idempotent under the CPython 3.11
`urlunsplit`: one application yields `"http:////w"`, a second yields
`"http://w"`. -/
theorem c5_counterexample :
    stripSas (("http://////w").data) = some (("http:////w").data) ∧
    stripSas (("http:////w").data) = some (("http://w").data) ∧
    (("http:////w").data) ≠ (("http://w").data) :=
  ⟨by decide, by decide, by decide⟩

/-- **C5** witness: the amended theorem applied to the spec's scenario URL. -/
theorem c5_witness :
    (degenerateSlashes (("https://acct.blob.core.windows.net/files/2024/a.pdf?sig=xyz").data)
        = false →
      stripSas (("https://acct.blob.core.windows.net/files/2024/a.pdf").data)
        = some (("https://acct.blob.core.windows.net/files/2024/a.pdf").data)) ∧
    '?' ∉ (("https://acct.blob.core.windows.net/files/2024/a.pdf").data) ∧
    '#' ∉ (("https://acct.blob.core.windows.net/files/2024/a.pdf").data) :=
  c5_stripToken_idempotent_tokenFree _ _ (by decide)

/-- **C3**: the three accepted representations of the same stored object
normalize to the identical `(containerName, objectName)` pair
`("files", "2024/a.pdf")` under `knownAccount = "acct"`,
`knownContainer = "files"`. -/
theorem c3_representations_equal :
    normalizePair testS
        (("https://acct.blob.core.windows.net/files/2024/a.pdf?sig=xyz").data)
      = ((("files").data), (("2024/a.pdf").data)) ∧
    normalizePair testS (("files/2024/a.pdf").data)
      = ((("files").data), (("2024/a.pdf").data)) ∧
    normalizePair testS (("2024/a.pdf").data)
      = ((("files").data), (("2024/a.pdf").data)) :=
  ⟨by decide, by decide, by decide⟩

/-- **C7**: every signing path (`blob_sas`, `upload_bytes_and_get_sas`,
`sas_url_for_blob_path`) passes `BlobSasPermissions(read=True)`: the
permission set of every produced grant is exactly read-only; no path ever
sets a write or delete flag. -/
theorem c7_read_only_always :
    (∀ s pathArg fn att hrs ct n1 n2,
      (match blobSas s pathArg fn att hrs ct n1 n2 with
       | some ps => ps.permission = readOnlyPerm
       | none => True)) ∧
    (∀ s bn ct dn ttl n1 n2,
      (uploadBytesAndGetSas s bn ct dn ttl n1 n2).permission = readOnlyPerm) ∧
    (∀ s bp ct dn ttl n1 n2,
      (match sasUrlForBlobPath s bp ct dn ttl n1 n2 with
       | some ps => ps.permission = readOnlyPerm
       | none => True)) := by
  refine ⟨?_, ?_, ?_⟩
  · intro s pathArg fn att hrs ct n1 n2
    rcases pathArg with _ | p
    · trivial
    · by_cases hp : p.isEmpty
      · simp [blobSas, hp]
      · simp [blobSas, hp, readOnlyPerm]
  · intro s bn ct dn ttl n1 n2
    rfl
  · intro s bp ct dn ttl n1 n2
    rcases hsp : splitFirst '/' bp with _ | ⟨a, b⟩
    · simp [sasUrlForBlobPath, hsp]
    · simp [sasUrlForBlobPath, hsp, readOnlyPerm]

/-- **C6** (amended): the validity window is `start = now - 5 minutes`,
`expiry = now + hours` with default 1 hour **on the `blob_sas` route only**;
the blobstore signing helpers (`upload_bytes_and_get_sas`,
`sas_url_for_blob_path`) instead use `start = now - 1 minute` and
`expiry = now + BLOB_SAS_TTL_MINUTES`. -/
theorem c6_validity_windows :
    (∀ s pathArg fn att hrs ct n1 n2,
      (match blobSas s pathArg fn att hrs ct n1 n2 with
       | some ps => ps.start = n1 - 5 * 60 ∧ ps.expiry = n2 + (hrs.getD 1) * 3600
       | none => True)) ∧
    (∀ s pathArg fn att ct n1 n2,
      (match blobSas s pathArg fn att none ct n1 n2 with
       | some ps => ps.expiry = n2 + 1 * 3600
       | none => True)) ∧
    (∀ s bn ct dn ttl n1 n2,
      (uploadBytesAndGetSas s bn ct dn ttl n1 n2).start = n1 - 60 ∧
      (uploadBytesAndGetSas s bn ct dn ttl n1 n2).expiry = n2 + ttl * 60) ∧
    (∀ s bp ct dn ttl n1 n2,
      (match sasUrlForBlobPath s bp ct dn ttl n1 n2 with
       | some ps => ps.start = n1 - 60 ∧ ps.expiry = n2 + ttl * 60
       | none => True)) := by
  refine ⟨?_, ?_, ?_, ?_⟩
  · intro s pathArg fn att hrs ct n1 n2
    rcases pathArg with _ | p
    · trivial
    · by_cases hp : p.isEmpty
      · simp [blobSas, hp]
      · simp [blobSas, hp]
  · intro s pathArg fn att ct n1 n2
    rcases pathArg with _ | p
    · trivial
    · by_cases hp : p.isEmpty
      · simp [blobSas, hp]
      · simp [blobSas, hp]
  · intro s bn ct dn ttl n1 n2
    exact ⟨rfl, rfl⟩
  · intro s bp ct dn ttl n1 n2
    rcases hsp : splitFirst '/' bp with _ | ⟨a, b⟩
    · simp [sasUrlForBlobPath, hsp]
    · simp [sasUrlForBlobPath, hsp]

/-- **C6** counterexample: `sas_url_for_blob_path` at `now = 0` produces
`start = -60` (a 1-minute margin), not `now - 5 minutes = -300`. -/
theorem c6_counterexample :
    ((sasUrlForBlobPath testS (("files/x").data) none none 60 0 0).map SasParams.start)
      = some (-60) ∧ ((-60 : Int) ≠ 0 - 5 * 60) :=
  ⟨by decide, by decide⟩

end Ryker

namespace Ryker

/-- **C8** counterexample: a record with no `blobPath` and a parseable
`fileUrl`, when the persisting `replace_item` fails (`persistOk = false`),
receives the 500 `deriveFailed` response — the derived value is **not** used
for the current response; with a successful persist the same request
redirects. -/
theorem c8_counterexample :
    downloadItemPdf testS
      { blobPath := none,
        fileUrl := some (.vstr (("https://acct.blob.core.windows.net/files/x.pdf").data)),
        rest := [] } false = .deriveFailed ∧
    downloadItemPdf testS
      { blobPath := none,
        fileUrl := some (.vstr (("https://acct.blob.core.windows.net/files/x.pdf").data)),
        rest := [] } true
      = .redirect302 (("https://acct.blob.core.windows.net/files/x.pdf").data) :=
  ⟨by decide, by decide⟩

/-- **C8** (amended): the lazy-migration cache-fill is fail-**closed**: when a
record lacking `blobPath` has a string `fileUrl` from which a path can be
derived (a `".net/"` split succeeds), a failing persist write produces the
500 `deriveFailed` response, and only a successful persist produces the
redirect built from the derived path. -/
theorem c8_cache_fill_fail_closed (s : Settings) (d : Doc) (l pre post : List Char)
    (hbp : d.blobPath = none)
    (hfu : d.fileUrl = some (.vstr l)) (hl : l ≠ [])
    (hsp : splitSub ((".net/").data) l = some (pre, post)) :
    downloadItemPdf s d false = .deriveFailed ∧
    (∀ url, publicBlobUrl s (post.takeWhile fun c => !(c == '?')) = some url →
      downloadItemPdf s d true = .redirect302 url) := by
  have htr : truthyVal d.fileUrl = true := by
    rw [hfu]
    rcases l with _ | ⟨c, t⟩
    · exact absurd rfl hl
    · rfl
  constructor
  · rw [downloadItemPdf, hbp]
    rw [downloadItemPdf.downloadDerive, htr, hfu]
    simp only [Bool.not_true, Bool.false_eq_true, if_false, hsp]
  · intro url hurl
    rw [downloadItemPdf, hbp]
    rw [downloadItemPdf.downloadDerive, htr, hfu]
    simp only [Bool.not_true, Bool.false_eq_true, if_false, hsp, hurl]
    simp

/-- **C8** witness: the amended theorem at the counterexample's record. -/
theorem c8_witness :
    downloadItemPdf testS
      { blobPath := none,
        fileUrl := some (.vstr (("https://acct.blob.core.windows.net/files/x.pdf").data)),
        rest := [] } false = .deriveFailed ∧
    (∀ url, publicBlobUrl testS
        ((("files/x.pdf").data).takeWhile fun c => !(c == '?')) = some url →
      downloadItemPdf testS
        { blobPath := none,
          fileUrl := some (.vstr (("https://acct.blob.core.windows.net/files/x.pdf").data)),
          rest := [] } true = .redirect302 url) :=
  c8_cache_fill_fail_closed testS _
    (("https://acct.blob.core.windows.net/files/x.pdf").data)
    (("https://acct.blob.core.windows").data) (("files/x.pdf").data)
    rfl rfl (by decide) (by decide)

/-- **C10**: `_sanitize_doc_urls` is frame-preserving: whenever it returns, it
has modified at most the `fileUrl` field; `blobPath` and every other field of
the document are unchanged. -/
theorem c10_sanitize_frame (s : Settings) (d d' : Doc)
    (h : sanitizeDocUrls s d = some d') :
    d'.blobPath = d.blobPath ∧ d'.rest = d.rest := by
  have hfb : ∀ e, sanitizeFromBlobPath s d = some e →
      e.blobPath = d.blobPath ∧ e.rest = d.rest := by
    intro e he
    rcases hbp : d.blobPath with _ | bp
    · simp only [sanitizeFromBlobPath, hbp] at he
      cases he
      exact ⟨hbp, rfl⟩
    · simp only [sanitizeFromBlobPath, hbp] at he
      by_cases hb : bp.isEmpty
      · rw [if_neg (by simp [hb])] at he
        cases he
        exact ⟨hbp, rfl⟩
      · rw [if_pos (by simp [hb])] at he
        rcases hpub : publicBlobUrl s bp with _ | url
        · rw [hpub] at he; cases he
        · rw [hpub] at he
          simp only [Option.map_some'] at he
          cases he
          exact ⟨rfl, rfl⟩
  rcases hfu : d.fileUrl with _ | fv
  · simp only [sanitizeDocUrls, hfu] at h
    exact hfb d' h
  · rcases fv with l | t
    · simp only [sanitizeDocUrls, hfu] at h
      by_cases hl : l.isEmpty
      · rw [if_neg (by simp [hl])] at h
        exact hfb d' h
      · rw [if_pos (by simp [hl])] at h
        rcases hss : stripSas l with _ | l'
        · rw [hss] at h; cases h
        · rw [hss] at h
          simp only [Option.map_some'] at h
          cases h
          exact ⟨rfl, rfl⟩
    · simp only [sanitizeDocUrls, hfu] at h
      exact hfb d' h

/-- **C10** witness: the frame property at a concrete document. -/
theorem c10_witness :
    ({ blobPath := some (("files/x.pdf").data),
       fileUrl := some (.vstr (("https://acct.blob.core.windows.net/files/x.pdf?sig=s").data)),
       rest := [((("pk").data), .vstr (("p1").data))] } : Doc).blobPath
      = some (("files/x.pdf").data) ∧
    True := by
  have h := c10_sanitize_frame testS
    { blobPath := some (("files/x.pdf").data),
      fileUrl := some (.vstr (("https://acct.blob.core.windows.net/files/x.pdf?sig=s").data)),
      rest := [((("pk").data), .vstr (("p1").data))] }
    { blobPath := some (("files/x.pdf").data),
      fileUrl := some (.vstr (("https://acct.blob.core.windows.net/files/x.pdf").data)),
      rest := [((("pk").data), .vstr (("p1").data))] }
    (by decide)
  exact ⟨h.1.trans rfl, trivial⟩

/-- **C2** counterexample: `normalize` (= `_normalize_blob_name`) does not
fail on these inputs — it is a total function that returns the (stripped)
input unchanged: `normalize("") = ""` and
`normalize("ftp://bad") = "ftp://bad"`; there is no `InvalidReference` /
`MalformedReference` error path in the function. -/
theorem c2_counterexample :
    normalizeBlobName testS [] = [] ∧
    normalizeBlobName testS (("ftp://bad").data) = (("ftp://bad").data) :=
  ⟨by decide, by decide⟩

/-- **C2** (amended): `normalize` never fails.  Any input in which the
account-host marker does not occur and that does not carry the
`container + "/"` prefix — in particular `""` and `"ftp://bad"` — is returned
whole (after whitespace stripping) as the object name; the route layer, not
the normalizer, rejects an absent or empty `path` parameter with a 400. -/
theorem c2_bare_fallthrough (s : Settings) (v : List Char)
    (hm : containsSub (hostMarker s) (pyStrip v) = false)
    (hp : (s.BLOB_CONTAINER ++ ['/']).isPrefixOf (pyStrip v) = false) :
    normalizeBlobName s v = pyStrip v := by
  rw [normalizeBlobName]
  simp only [hm, Bool.false_eq_true, if_false, hp]

/-- **C2** witness: the amended theorem at `"ftp://bad"`. -/
theorem c2_witness : normalizeBlobName testS (("ftp://bad").data)
    = pyStrip (("ftp://bad").data) :=
  c2_bare_fallthrough testS (("ftp://bad").data) (by decide) (by decide)

end Ryker

namespace Ryker

/-! ## Lemmas about `splitSub` and the account-host marker -/

theorem splitSub_cons_of_not_pref {sep : List Char} {c : Char} {cs : List Char}
    (h : sep.isPrefixOf (c :: cs) = false) :
    splitSub sep (c :: cs) = (splitSub sep cs).map fun p => (c :: p.1, p.2) := by
  rw [splitSub, if_neg (by simp [h])]

theorem containsSub_append (sep a b : List Char) (hne : sep ≠ []) :
    containsSub sep (a ++ sep ++ b) = true := by
  induction a with
  | nil =>
    rcases sep with _ | ⟨s, ss⟩
    · exact (hne rfl).elim
    · simp only [List.nil_append, List.cons_append, containsSub]
      rw [splitSub, if_pos]
      · rfl
      · have := isPrefixOf_append (s :: ss) b
        simp only [List.cons_append] at this
        exact this
  | cons c a' ih =>
    simp only [List.cons_append, containsSub]
    by_cases hp : sep.isPrefixOf (c :: (a' ++ sep ++ b)) = true
    · rw [splitSub, if_pos hp]
      rfl
    · rw [splitSub_cons_of_not_pref (eq_false_of_ne_true hp)]
      simp only [containsSub] at ih
      rcases h2 : splitSub sep (a' ++ sep ++ b) with _ | pr
      · rw [h2] at ih
        simp at ih
      · rfl

/-- Walking `splitSub ".net/"` through a lowercase-alphanumeric account name
followed by the literal host suffix: the first occurrence of `".net/"` is the
one ending the host. -/
theorem splitSub_net_host (acct : List Char) (ha : acct.all isLowerAlnum = true)
    (t : List Char) :
    splitSub ((".net/").data) (acct ++ (".blob.core.windows.net/").data ++ t)
      = some (acct ++ (".blob.core.windows").data, t) := by
  induction acct with
  | nil =>
    simp [splitSub, List.isPrefixOf]
  | cons c a' ih =>
    simp only [List.all_cons, Bool.and_eq_true] at ha
    have hcd : ∀ u : List Char, ((".net/").data).isPrefixOf (c :: u) = false := by
      intro u
      have h1 : ('.' == c) = false := by
        simp only [beq_eq_false_iff_ne]
        intro e
        have := e ▸ ha.1
        exact absurd this (by decide)
      simp [List.isPrefixOf, h1]
    have hstep := @splitSub_cons_of_not_pref ((".net/").data) c
      (a' ++ (".blob.core.windows.net/").data ++ t) (hcd _)
    calc splitSub ((".net/").data)
          ((c :: a') ++ (".blob.core.windows.net/").data ++ t)
        = splitSub ((".net/").data)
          (c :: (a' ++ (".blob.core.windows.net/").data ++ t)) := by
          simp only [List.cons_append]
      _ = (splitSub ((".net/").data)
            (a' ++ (".blob.core.windows.net/").data ++ t)).map
            (fun p => (c :: p.1, p.2)) := hstep
      _ = some ((c :: a') ++ (".blob.core.windows").data, t) := by
          rw [ih ha.2]
          simp only [Option.map_some', List.cons_append]

/-- The same walk under an `http://` or `https://` scheme prefix. -/
theorem splitSub_net_host_url (acct : List Char) (ha : acct.all isLowerAlnum = true)
    (sch : List Char) (hs : sch = ("http://").data ∨ sch = ("https://").data)
    (t : List Char) :
    splitSub ((".net/").data) (sch ++ acct ++ (".blob.core.windows.net/").data ++ t)
      = some (sch ++ acct ++ (".blob.core.windows").data, t) := by
  have key := splitSub_net_host acct ha t
  have hnp : ∀ (c : Char) (u : List Char), ('.' == c) = false →
      ((".net/").data).isPrefixOf (c :: u) = false := by
    intro c u h1
    simp [List.isPrefixOf, h1]
  rcases hs with rfl | rfl
  · show splitSub ((".net/").data)
        ('h' :: 't' :: 't' :: 'p' :: ':' :: '/' :: '/' ::
          (acct ++ (".blob.core.windows.net/").data ++ t))
      = some ('h' :: 't' :: 't' :: 'p' :: ':' :: '/' :: '/' ::
          (acct ++ (".blob.core.windows").data), t)
    rw [splitSub_cons_of_not_pref (hnp _ _ (by decide)),
      splitSub_cons_of_not_pref (hnp _ _ (by decide)),
      splitSub_cons_of_not_pref (hnp _ _ (by decide)),
      splitSub_cons_of_not_pref (hnp _ _ (by decide)),
      splitSub_cons_of_not_pref (hnp _ _ (by decide)),
      splitSub_cons_of_not_pref (hnp _ _ (by decide)),
      splitSub_cons_of_not_pref (hnp _ _ (by decide)), key]
    rfl
  · show splitSub ((".net/").data)
        ('h' :: 't' :: 't' :: 'p' :: 's' :: ':' :: '/' :: '/' ::
          (acct ++ (".blob.core.windows.net/").data ++ t))
      = some ('h' :: 't' :: 't' :: 'p' :: 's' :: ':' :: '/' :: '/' ::
          (acct ++ (".blob.core.windows").data), t)
    rw [splitSub_cons_of_not_pref (hnp _ _ (by decide)),
      splitSub_cons_of_not_pref (hnp _ _ (by decide)),
      splitSub_cons_of_not_pref (hnp _ _ (by decide)),
      splitSub_cons_of_not_pref (hnp _ _ (by decide)),
      splitSub_cons_of_not_pref (hnp _ _ (by decide)),
      splitSub_cons_of_not_pref (hnp _ _ (by decide)),
      splitSub_cons_of_not_pref (hnp _ _ (by decide)),
      splitSub_cons_of_not_pref (hnp _ _ (by decide)), key]
    rfl

end Ryker

namespace Ryker

theorem getLast_eq_getLastD' :
    ∀ (l : List Char) (hl : l ≠ []) (d : Char), l.getLast hl = l.getLastD d
  | [c], _, d => rfl
  | c :: d2 :: t2, _, d => by
    rw [List.getLast_cons (by simp)]
    exact getLast_eq_getLastD' (d2 :: t2) (by simp) c

/-- A nonempty string whose first and last characters are not Python
whitespace is unchanged by `str.strip()`. -/
theorem pyStrip_eq_self {c : Char} {t : List Char}
    (hhead : pyIsSpace c = false)
    (hlast : pyIsSpace ((c :: t).getLastD ' ') = false) :
    pyStrip (c :: t) = c :: t := by
  rw [pyStrip, List.dropWhile_cons_of_neg (by simp [hhead])]
  rw [List.rdropWhile_eq_self_iff]
  intro hl hp
  rw [getLast_eq_getLastD' _ hl ' '] at hp
  rw [hlast] at hp
  cases hp

theorem all_bne_of_not_mem {x : Char} {l : List Char} (h : x ∉ l) :
    l.all (fun c => !(c == x)) = true := by
  rw [List.all_eq_true]
  intro a ha
  simp only [Bool.not_eq_true', beq_eq_false_iff_ne]
  exact fun e => h (e ▸ ha)

/-- A container-prefixed value never looks like a URL: the `http(s)://`
prefix test of `_public_blob_url` fails on `cont ++ "/" ++ n` when `cont`
consists of container-name characters. -/
theorem not_url_prefix_of_container {cont n : List Char}
    (hc : cont.all isContainerChar = true) :
    (("http://").data).isPrefixOf (cont ++ '/' :: n) = false ∧
    (("https://").data).isPrefixOf (cont ++ '/' :: n) = false := by
  rcases cont with _ | ⟨c0, _ | ⟨c1, _ | ⟨c2, _ | ⟨c3, _ | ⟨c4, _ | ⟨c5, rest⟩⟩⟩⟩⟩⟩
  · exact ⟨by simp [List.isPrefixOf], by simp [List.isPrefixOf]⟩
  · constructor <;>
      (refine eq_false_of_ne_true fun h => ?_; simp [List.isPrefixOf] at h)
  · constructor <;>
      (refine eq_false_of_ne_true fun h => ?_; simp [List.isPrefixOf] at h)
  · constructor <;>
      (refine eq_false_of_ne_true fun h => ?_; simp [List.isPrefixOf] at h)
  · constructor <;>
      (refine eq_false_of_ne_true fun h => ?_; simp [List.isPrefixOf] at h)
  · constructor
    · refine eq_false_of_ne_true fun h => ?_
      simp [List.isPrefixOf] at h
      obtain ⟨-, -, -, -, h4, -⟩ := h
      have hcc := (List.all_eq_true.mp hc) c4 (by simp)
      rw [← h4] at hcc
      exact absurd hcc (by decide)
    · refine eq_false_of_ne_true fun h => ?_
      simp [List.isPrefixOf] at h
  · constructor
    · refine eq_false_of_ne_true fun h => ?_
      simp [List.isPrefixOf] at h
      obtain ⟨-, -, -, -, h4, -⟩ := h
      have hcc := (List.all_eq_true.mp hc) c4 (by simp)
      rw [← h4] at hcc
      exact absurd hcc (by decide)
    · refine eq_false_of_ne_true fun h => ?_
      simp [List.isPrefixOf] at h
      obtain ⟨-, -, -, -, -, h5, -⟩ := h
      have hcc := (List.all_eq_true.mp hc) c5 (by simp)
      rw [← h5] at hcc
      exact absurd hcc (by decide)

end Ryker

namespace Ryker

theorem getLastD_append (a : List Char) (c : Char) (t : List Char) (d : Char) :
    (a ++ c :: t).getLastD d = (c :: t).getLastD d := by
  induction a generalizing d with
  | nil => rfl
  | cons x a' ih =>
    rw [List.cons_append, List.getLastD_cons, ih x, List.getLastD_cons,
      List.getLastD_cons]

theorem getLastD_append' (a : List Char) (b : List Char) (hb : b ≠ []) {d : Char} :
    (a ++ b).getLastD d = b.getLastD d := by
  rcases b with _ | ⟨c, t⟩
  · exact absurd rfl hb
  · exact getLastD_append a c t d

theorem containerChar_not_space {c : Char} (h : isContainerChar c = true) :
    pyIsSpace c = false := by
  simp only [isContainerChar, isLowerAlnum, Bool.or_eq_true, Bool.and_eq_true,
    decide_eq_true_eq, beq_iff_eq] at h
  simp only [pyIsSpace, Bool.or_eq_false_iff, Bool.and_eq_false_iff,
    decide_eq_false_iff_not, not_le, beq_eq_false_iff_ne]
  omega

theorem containerChar_ne_qmark {c : Char} (h : isContainerChar c = true) :
    (c == '?') = false := by
  simp only [isContainerChar, isLowerAlnum, Bool.or_eq_true, Bool.and_eq_true,
    decide_eq_true_eq, beq_iff_eq] at h
  simp only [beq_eq_false_iff_ne]
  have e : ('?' : Char).toNat = 63 := by decide
  exact char_ne_of_toNat (by rw [e]; omega)

/-- **C4**: round-trip.  For every wellformed configuration and every valid
`(containerName, objectName)` pair — the container being the configured one,
the name nonempty, `'?'`-free and not ending in whitespace — normalizing the
URL produced by `publicUrl` (= `_public_blob_url` applied to the canonical
`container/name` path) yields back exactly `(containerName, objectName)`. -/
theorem c4_normalize_publicUrl_roundtrip (s : Settings) (n : List Char)
    (hs : wellFormedSettings s = true) (hn : validObjectName n = true) :
    (publicBlobUrl s (s.BLOB_CONTAINER ++ '/' :: n)).map (normalizePair s)
      = some (s.BLOB_CONTAINER, n) := by
  simp only [wellFormedSettings, validAccountName, validContainerName,
    Bool.and_eq_true] at hs
  obtain ⟨⟨-, haall⟩, hcne, hcall⟩ := hs
  simp only [validObjectName, Bool.and_eq_true, Bool.not_eq_true'] at hn
  obtain ⟨⟨hnne, hnq⟩, hnlast⟩ := hn
  have hnq' : '?' ∉ n := by simpa using hnq
  rcases hcont : s.BLOB_CONTAINER with _ | ⟨k0, kt⟩
  · rw [hcont] at hcne; simp at hcne
  rcases hnv : n with _ | ⟨n0, nt⟩
  · rw [hnv] at hnne; simp at hnne
  rw [← hnv, ← hcont]
  -- the value passed to _public_blob_url, unchanged by strip
  have hvstrip : pyStrip (s.BLOB_CONTAINER ++ '/' :: n) = s.BLOB_CONTAINER ++ '/' :: n := by
    rw [hcont, List.cons_append]
    apply pyStrip_eq_self
    · apply containerChar_not_space
      rw [hcont] at hcall
      exact (List.all_eq_true.mp hcall) k0 (List.mem_cons_self _ _)
    · rw [← List.cons_append, getLastD_append _ '/' n ' ']
      rw [List.getLastD_cons]
      rw [hnv] at hnlast ⊢
      rw [List.getLastD_cons] at hnlast ⊢
      exact hnlast
  have hpfx := @not_url_prefix_of_container s.BLOB_CONTAINER n hcall
  have hselfpfx : (s.BLOB_CONTAINER ++ ['/']).isPrefixOf (s.BLOB_CONTAINER ++ '/' :: n)
      = true := by
    have := isPrefixOf_append (s.BLOB_CONTAINER ++ ['/']) n
    rwa [List.append_assoc] at this
  have hurl : publicBlobUrl s (s.BLOB_CONTAINER ++ '/' :: n)
      = some (("https://").data ++ s.BLOB_ACCOUNT ++ (".blob.core.windows.net/").data
          ++ (s.BLOB_CONTAINER ++ '/' :: n)) := by
    rw [publicBlobUrl, hvstrip]
    rw [if_neg (by rw [hpfx.1, hpfx.2]; simp)]
    rw [if_neg (by rw [hselfpfx]; simp)]
  rw [hurl, Option.map_some']
  -- now normalize the produced URL
  have hmark : containsSub (hostMarker s)
      (("https://").data ++ s.BLOB_ACCOUNT ++ (".blob.core.windows.net/").data
        ++ (s.BLOB_CONTAINER ++ '/' :: n)) = true := by
    have key := containsSub_append (hostMarker s) (("https").data)
      (s.BLOB_CONTAINER ++ '/' :: n) (by simp [hostMarker])
    have heq : ("https").data ++ hostMarker s ++ (s.BLOB_CONTAINER ++ '/' :: n)
        = ("https://").data ++ s.BLOB_ACCOUNT ++ (".blob.core.windows.net/").data
          ++ (s.BLOB_CONTAINER ++ '/' :: n) := by
      simp [hostMarker, List.cons_append, List.append_assoc]
    rwa [heq] at key
  have hsplit := splitSub_net_host_url s.BLOB_ACCOUNT haall (("https://").data)
    (Or.inr rfl) (s.BLOB_CONTAINER ++ '/' :: n)
  have hallnq : (s.BLOB_CONTAINER ++ '/' :: n).all (fun c => !(c == '?')) = true := by
    rw [List.all_append]
    refine (Bool.and_eq_true _ _).mpr ⟨?_, ?_⟩
    · rw [List.all_eq_true]
      intro a ha
      exact (by simpa using containerChar_ne_qmark ((List.all_eq_true.mp hcall) a ha))
    · rw [List.all_cons]
      refine (Bool.and_eq_true _ _).mpr ⟨by decide, all_bne_of_not_mem hnq'⟩
  have hurlstrip : pyStrip
      (("https://").data ++ s.BLOB_ACCOUNT ++ (".blob.core.windows.net/").data
        ++ (s.BLOB_CONTAINER ++ '/' :: n)) = ("https://").data ++ s.BLOB_ACCOUNT
        ++ (".blob.core.windows.net/").data ++ (s.BLOB_CONTAINER ++ '/' :: n) := by
    have hshape : ("https://").data ++ s.BLOB_ACCOUNT ++ (".blob.core.windows.net/").data
        ++ (s.BLOB_CONTAINER ++ '/' :: n)
        = 'h' :: (("ttps://").data ++ s.BLOB_ACCOUNT ++ (".blob.core.windows.net/").data
          ++ (s.BLOB_CONTAINER ++ '/' :: n)) := by
      simp [List.cons_append, List.append_assoc]
    rw [hshape]
    apply pyStrip_eq_self (by decide)
    rw [← hshape]
    rw [List.append_assoc, List.append_assoc]
    rw [getLastD_append' (("https://").data) _ (by simp)]
    rw [getLastD_append' s.BLOB_ACCOUNT _ (by simp)]
    rw [getLastD_append' ((".blob.core.windows.net/").data) _ (by simp)]
    rw [getLastD_append s.BLOB_CONTAINER '/' n ' ']
    rw [List.getLastD_cons]
    rw [hnv] at hnlast ⊢
    rw [List.getLastD_cons] at hnlast ⊢
    exact hnlast
  rw [normalizePair, normalizeBlobName, hurlstrip]
  simp only [hmark, if_pos, hsplit, Option.some_bind]
  rw [urlPathToName]
  have htw : (s.BLOB_CONTAINER ++ '/' :: n).takeWhile (fun c => !(c == '?'))
      = s.BLOB_CONTAINER ++ '/' :: n := (takeWhile_all hallnq).1
  rw [htw, if_pos hselfpfx]
  have hdrop : (s.BLOB_CONTAINER ++ '/' :: n).drop (s.BLOB_CONTAINER.length + 1) = n := by
    rw [show s.BLOB_CONTAINER ++ '/' :: n = (s.BLOB_CONTAINER ++ ['/']) ++ n by
      rw [List.append_assoc]; rfl]
    have := List.drop_left (s.BLOB_CONTAINER ++ ['/']) n
    simp only [List.length_append, List.length_cons, List.length_nil] at this
    exact this
  rw [hdrop]

/-- **C4** witness: the round-trip at the concrete configuration and pair of
the spec's scenarios. -/
theorem c4_witness :
    (publicBlobUrl testS (testS.BLOB_CONTAINER ++ '/' :: (("2024/a.pdf").data))).map
        (normalizePair testS)
      = some (testS.BLOB_CONTAINER, (("2024/a.pdf").data)) :=
  c4_normalize_publicUrl_roundtrip testS (("2024/a.pdf").data) (by decide) (by decide)

end Ryker

namespace Ryker

/-- The result of the URL branch of `_normalize_blob_name` is a suffix of the
query-stripped path. -/
theorem urlPathToName_suffix {s : Settings} {path r : List Char}
    (h : urlPathToName s path = some r) : ∃ t, path = t ++ r := by
  rw [urlPathToName] at h
  by_cases hp : (s.BLOB_CONTAINER ++ ['/']).isPrefixOf path = true
  · rw [if_pos hp] at h
    cases h
    obtain ⟨t0, ht0⟩ := isPrefixOf_iff_ex.mp hp
    refine ⟨s.BLOB_CONTAINER ++ ['/'], ?_⟩
    rw [ht0]
    congr 1
    have := List.drop_left (s.BLOB_CONTAINER ++ ['/']) t0
    simp only [List.length_append, List.length_cons, List.length_nil] at this
    rw [← ht0]
    rw [ht0, this]
  · rw [if_neg hp] at h
    rcases hsp : splitFirst '/' path with _ | ⟨a, b⟩
    · rw [hsp] at h; cases h
    · rw [hsp] at h
      simp only [Option.map_some'] at h
      cases h
      obtain ⟨he, -⟩ := splitFirst_some hsp
      exact ⟨a ++ ['/'], by rw [he, List.append_assoc]; rfl⟩

/-- **C1** (amended).  The URL branch of `normalize` fires on inputs carrying
the known account host: for every input of the form
`"http(s)://" ++ account ++ ".blob.core.windows.net/" ++ rest` (with no
surrounding whitespace), when the query-stripped path `rest.takeWhile (≠ '?')`
has the container prefix or contains a separator, `normalize` returns the
name derived from that path — a suffix of the path, never the scheme or host;
the fragment is not stripped, and URLs on other hosts fall through to
bare-name handling (see the counterexample). -/
theorem c1_account_url_branch (s : Settings) (sch rest r : List Char)
    (hs : wellFormedSettings s = true)
    (hsch : sch = ("http://").data ∨ sch = ("https://").data)
    (hstrip : pyStrip (sch ++ s.BLOB_ACCOUNT ++ (".blob.core.windows.net/").data ++ rest)
      = sch ++ s.BLOB_ACCOUNT ++ (".blob.core.windows.net/").data ++ rest)
    (hshape : urlPathToName s (rest.takeWhile fun c => !(c == '?')) = some r) :
    normalizeBlobName s
        (sch ++ s.BLOB_ACCOUNT ++ (".blob.core.windows.net/").data ++ rest) = r ∧
    ∃ t, (rest.takeWhile fun c => !(c == '?')) = t ++ r := by
  simp only [wellFormedSettings, validAccountName, validContainerName,
    Bool.and_eq_true] at hs
  obtain ⟨⟨-, haall⟩, -, -⟩ := hs
  have hmark : containsSub (hostMarker s)
      (sch ++ s.BLOB_ACCOUNT ++ (".blob.core.windows.net/").data ++ rest) = true := by
    have hpre : ∃ pre, sch = pre ++ [':', '/', '/'] ∧ pre ≠ [] := by
      rcases hsch with rfl | rfl
      · exact ⟨("http").data, rfl, by simp⟩
      · exact ⟨("https").data, rfl, by simp⟩
    obtain ⟨pre, hpe, hpne⟩ := hpre
    have key := containsSub_append (hostMarker s) pre rest (by simp [hostMarker])
    have heq : pre ++ hostMarker s ++ rest
        = sch ++ s.BLOB_ACCOUNT ++ (".blob.core.windows.net/").data ++ rest := by
      rw [hpe]
      simp [hostMarker, List.cons_append, List.append_assoc]
    rwa [heq] at key
  have hsplit := splitSub_net_host_url s.BLOB_ACCOUNT haall sch hsch rest
  refine ⟨?_, urlPathToName_suffix hshape⟩
  rw [normalizeBlobName, hstrip]
  simp only [hmark, if_pos, hsplit, Option.some_bind, hshape]

/-- **C1** counterexample: `"http://example.com/a.pdf"` starts with
`http://` but is not on the account host, so `_normalize_blob_name` falls
through to bare-name handling and returns the full URL — scheme and host end
up in the object name; and on the account host the fragment is **not**
stripped (`#frag` survives into the name). -/
theorem c1_counterexample :
    (("http://").data).isPrefixOf (("http://example.com/a.pdf").data) = true ∧
    normalizeBlobName testS (("http://example.com/a.pdf").data)
      = (("http://example.com/a.pdf").data) ∧
    normalizeBlobName testS
        (("https://acct.blob.core.windows.net/files/a.pdf#frag").data)
      = (("a.pdf#frag").data) :=
  ⟨by decide, by decide, by decide⟩

/-- **C1** witness: the amended theorem at the spec's scenario URL. -/
theorem c1_witness :
    normalizeBlobName testS
        ((("https://").data) ++ testS.BLOB_ACCOUNT
          ++ ((".blob.core.windows.net/").data) ++ (("files/2024/a.pdf?sig=xyz").data))
      = (("2024/a.pdf").data) ∧
    ∃ t, ((("files/2024/a.pdf?sig=xyz").data).takeWhile fun c => !(c == '?'))
      = t ++ (("2024/a.pdf").data) :=
  c1_account_url_branch testS (("https://").data) (("files/2024/a.pdf?sig=xyz").data)
    (("2024/a.pdf").data) (by decide) (Or.inr rfl) (by decide) (by decide)

end Ryker

namespace Ryker

theorem bnot_contains_of_not_mem {a : Char} {l : List Char} (h : a ∉ l) :
    (!l.contains a) = true := by
  induction l with
  | nil => rfl
  | cons x xs ih =>
    simp only [List.contains_cons, Bool.not_or, Bool.and_eq_true]
    refine ⟨?_, ih fun hm => h (List.mem_cons_of_mem _ hm)⟩
    have hne : ¬ a = x := fun he => h (he ▸ List.mem_cons_self x xs)
    simp [hne]

/-- `_public_blob_url` never puts a `'?'` into its result when the input
path has none: the `http(s)` branch runs `_strip_sas` (which drops query and
fragment), and the rebuild branch concatenates only configuration names, a
slash and the stripped path. -/
theorem publicBlobUrl_no_query {s : Settings} {bp url : List Char}
    (hs : wellFormedSettings s = true) (hbp : '?' ∉ bp)
    (h : publicBlobUrl s bp = some url) : '?' ∉ url := by
  simp only [wellFormedSettings, validAccountName, validContainerName,
    Bool.and_eq_true] at hs
  obtain ⟨⟨-, haall⟩, -, hcall⟩ := hs
  simp only [publicBlobUrl] at h
  by_cases hc : (("http://").data.isPrefixOf (pyStrip bp)
      || ("https://").data.isPrefixOf (pyStrip bp)) = true
  · rw [if_pos hc] at h
    exact (stripSas_no_qf h).1
  · rw [if_neg hc] at h
    have hurl := Option.some.inj h
    intro hm
    rw [← hurl] at hm
    rcases List.mem_append.mp hm with hm1 | hm2
    · rcases List.mem_append.mp hm1 with hm3 | hm4
      · rcases List.mem_append.mp hm3 with hm5 | hm6
        · exact absurd hm5 (by decide)
        · have := List.all_eq_true.mp haall _ hm6
          exact absurd this (by decide)
      · exact absurd hm4 (by decide)
    · by_cases hpf : (!(s.BLOB_CONTAINER ++ ['/']).isPrefixOf (pyStrip bp)) = true
      · rw [if_pos hpf] at hm2
        rcases List.mem_append.mp hm2 with hmc | hmv
        · have := containerChar_ne_qmark (List.all_eq_true.mp hcall _ hmc)
          simp at this
        · rcases List.mem_cons.mp hmv with he | hmv2
          · exact absurd he (by decide)
          · exact hbp (mem_pyStrip hmv2)
      · rw [if_neg hpf] at hm2
        exact hbp (mem_pyStrip hm2)

/-- The `elif bp_:` rebuild arm keeps `fileUrl` free of `'?'` whenever the
stored `blobPath` is and the incoming `fileUrl` already was. -/
theorem sanitizeFromBlobPath_noQuery {s : Settings} {doc d : Doc}
    (hs : wellFormedSettings s = true)
    (hbp : ∀ bp, doc.blobPath = some bp → '?' ∉ bp)
    (hfuOK : fileUrlNoQuery doc = true)
    (h : sanitizeFromBlobPath s doc = some d) : fileUrlNoQuery d = true := by
  simp only [sanitizeFromBlobPath] at h
  rcases hbpv : doc.blobPath with _ | bp
  · simp only [hbpv] at h
    exact (Option.some.inj h) ▸ hfuOK
  · simp only [hbpv] at h
    by_cases hbe : (!bp.isEmpty) = true
    · rw [if_pos hbe] at h
      obtain ⟨u, hu, hd⟩ := Option.map_eq_some'.mp h
      rw [← hd]
      exact bnot_contains_of_not_mem (publicBlobUrl_no_query hs (hbp bp hbpv) hu)
    · rw [if_neg hbe] at h
      exact (Option.some.inj h) ▸ hfuOK

theorem createItemJsonPersisted_noQuery {s : Settings} {body d : Doc}
    (hs : wellFormedSettings s = true)
    (hbp : ∀ bp, body.blobPath = some bp → '?' ∉ bp)
    (h : createItemJsonPersisted s body = some d) :
    fileUrlNoQuery d = true := by
  simp only [createItemJsonPersisted] at h
  rcases hfu : body.fileUrl with _ | fu
  · simp only [hfu] at h
    have h2 : sanitizeFromBlobPath s body = some d := by
      simp only [sanitizeFromBlobPath]
      exact h
    exact sanitizeFromBlobPath_noQuery hs hbp (by simp [fileUrlNoQuery, hfu]) h2
  · rcases fu with l | t
    · simp only [hfu] at h
      obtain ⟨l2, hsl, hd⟩ := Option.map_eq_some'.mp h
      rw [← hd]
      exact bnot_contains_of_not_mem (stripSas_no_qf hsl).1
    · simp only [hfu] at h
      have h2 : sanitizeFromBlobPath s body = some d := by
        simp only [sanitizeFromBlobPath]
        exact h
      exact sanitizeFromBlobPath_noQuery hs hbp (by simp [fileUrlNoQuery, hfu]) h2

theorem createItemMultipartPersisted_noQuery {s : Settings} {form d : Doc}
    {pk idv sfx : List Char}
    (hs : wellFormedSettings s = true)
    (hpk : '?' ∉ pk) (hid : '?' ∉ idv) (hsfx : '?' ∉ sfx)
    (h : createItemMultipartPersisted s form pk idv sfx = some d) :
    fileUrlNoQuery d = true := by
  have hs2 := hs
  simp only [wellFormedSettings, validAccountName, validContainerName,
    Bool.and_eq_true] at hs2
  obtain ⟨-, -, hcall⟩ := hs2
  simp only [createItemMultipartPersisted] at h
  obtain ⟨u, hu, hd⟩ := Option.map_eq_some'.mp h
  have hbpq : '?' ∉ s.BLOB_CONTAINER ++ '/' :: multipartBlobName pk idv sfx := by
    intro hm
    rcases List.mem_append.mp hm with hc | hm2
    · have := containerChar_ne_qmark (List.all_eq_true.mp hcall _ hc)
      simp at this
    · rcases List.mem_cons.mp hm2 with he | hm3
      · exact absurd he (by decide)
      · simp only [multipartBlobName] at hm3
        rcases List.mem_append.mp hm3 with h1 | h2
        · exact hpk h1
        · rcases List.mem_cons.mp h2 with he | h3
          · exact absurd he (by decide)
          · rcases List.mem_append.mp h3 with h4 | h5
            · exact hid h4
            · rcases List.mem_cons.mp h5 with he | h6
              · exact absurd he (by decide)
              · rcases List.mem_append.mp h6 with h7 | h8
                · exact hsfx h7
                · exact absurd h8 (by decide)
  rw [← hd]
  exact bnot_contains_of_not_mem (publicBlobUrl_no_query hs hbpq hu)

theorem upsertItemPersisted_noQuery {s : Settings} {body : Doc}
    {existing : Option Doc} {d : Doc}
    (hs : wellFormedSettings s = true)
    (hbp : ∀ bp, body.blobPath = some bp → '?' ∉ bp)
    (hex : ∀ ex bp, existing = some ex → ex.blobPath = some bp → '?' ∉ bp)
    (h : upsertItemPersisted s body existing = some d) :
    fileUrlNoQuery d = true := by
  simp only [upsertItemPersisted] at h
  obtain ⟨body1, hb1, hmerge⟩ := Option.bind_eq_some.mp h
  have hq1 : fileUrlNoQuery body1 = true := by
    rcases hfu : body.fileUrl with _ | fu
    · simp only [hfu] at hb1
      rcases hbpv : body.blobPath with _ | bp
      · simp only [hbpv] at hb1
        have hb : fileUrlNoQuery body = true := by simp [fileUrlNoQuery, hfu]
        exact (Option.some.inj hb1) ▸ hb
      · simp only [hbpv] at hb1
        by_cases hcnd : (!bp.isEmpty && !truthyVal (none : Option PyVal)) = true
        · rw [if_pos hcnd] at hb1
          obtain ⟨u, hu, hd⟩ := Option.map_eq_some'.mp hb1
          rw [← hd]
          exact bnot_contains_of_not_mem (publicBlobUrl_no_query hs (hbp bp hbpv) hu)
        · rw [if_neg hcnd] at hb1
          have hb : fileUrlNoQuery body = true := by simp [fileUrlNoQuery, hfu]
          exact (Option.some.inj hb1) ▸ hb
    · rcases fu with l | t
      · simp only [hfu] at hb1
        obtain ⟨l2, hsl, hd⟩ := Option.map_eq_some'.mp hb1
        rw [← hd]
        exact bnot_contains_of_not_mem (stripSas_no_qf hsl).1
      · simp only [hfu] at hb1
        rcases hbpv : body.blobPath with _ | bp
        · simp only [hbpv] at hb1
          have hb : fileUrlNoQuery body = true := by simp [fileUrlNoQuery, hfu]
          exact (Option.some.inj hb1) ▸ hb
        · simp only [hbpv] at hb1
          by_cases hcnd : (!bp.isEmpty && !truthyVal (some (PyVal.vother t))) = true
          · rw [if_pos hcnd] at hb1
            obtain ⟨u, hu, hd⟩ := Option.map_eq_some'.mp hb1
            rw [← hd]
            exact bnot_contains_of_not_mem
              (publicBlobUrl_no_query hs (hbp bp hbpv) hu)
          · rw [if_neg hcnd] at hb1
            have hb : fileUrlNoQuery body = true := by simp [fileUrlNoQuery, hfu]
            exact (Option.some.inj hb1) ▸ hb
  rcases existing with _ | ex
  · exact (Option.some.inj hmerge) ▸ hq1
  · rcases hb1bp : body1.blobPath with _ | bp1
    · rcases hexbp : ex.blobPath with _ | exbp
      · simp only [hb1bp, hexbp] at hmerge
        exact (Option.some.inj hmerge) ▸ hq1
      · simp only [hb1bp, hexbp] at hmerge
        rcases hb1fu : body1.fileUrl with _ | fu1
        · simp only [hb1fu] at hmerge
          obtain ⟨u, hu, hd⟩ := Option.map_eq_some'.mp hmerge
          rw [← hd]
          exact bnot_contains_of_not_mem
            (publicBlobUrl_no_query hs (hex ex exbp rfl hexbp) hu)
        · simp only [hb1fu] at hmerge
          have hd := Option.some.inj hmerge
          rw [← hd]
          simp only [fileUrlNoQuery] at hq1 ⊢
          rw [hb1fu] at hq1
          exact hq1
    · rcases hexbp : ex.blobPath with _ | exbp
      · simp only [hb1bp, hexbp] at hmerge
        exact (Option.some.inj hmerge) ▸ hq1
      · simp only [hb1bp, hexbp] at hmerge
        exact (Option.some.inj hmerge) ▸ hq1

theorem sanitizeDocUrls_noQuery {s : Settings} {doc d : Doc}
    (hs : wellFormedSettings s = true)
    (hbp : ∀ bp, doc.blobPath = some bp → '?' ∉ bp)
    (h : sanitizeDocUrls s doc = some d) : fileUrlNoQuery d = true := by
  simp only [sanitizeDocUrls] at h
  rcases hfu : doc.fileUrl with _ | fu
  · simp only [hfu] at h
    exact sanitizeFromBlobPath_noQuery hs hbp (by simp [fileUrlNoQuery, hfu]) h
  · rcases fu with l | t
    · simp only [hfu] at h
      by_cases hle : (!l.isEmpty) = true
      · rw [if_pos hle] at h
        obtain ⟨l2, hsl, hd⟩ := Option.map_eq_some'.mp h
        rw [← hd]
        exact bnot_contains_of_not_mem (stripSas_no_qf hsl).1
      · rw [if_neg hle] at h
        have hl : l = [] := by
          cases l with
          | nil => rfl
          | cons a as => simp at hle
        exact sanitizeFromBlobPath_noQuery hs hbp
          (by simp [fileUrlNoQuery, hfu, hl]) h
    · simp only [hfu] at h
      exact sanitizeFromBlobPath_noQuery hs hbp (by simp [fileUrlNoQuery, hfu]) h

/-- **C9** (amended).  SAS-free invariant on stored and returned display
URLs, restricted to records whose stored `blobPath` (and, for the multipart
upload, the name components) contains no `'?'`: every document persisted by
the JSON and multipart branches of `create_item` and by `upsert_item`, and
every document rewritten by `_sanitize_doc_urls` for a list/get/search
response, carries a `fileUrl` with no query component — either stripped from
the incoming value by `_strip_sas` or rebuilt from `blobPath` as a no-token
public URL.  The restriction is necessary: a stored `blobPath` that itself
contains `'?'` is pasted verbatim into `fileUrl` (see the counterexample). -/
theorem c9_sas_free_urls (s : Settings) (hs : wellFormedSettings s = true) :
    (∀ body d, (∀ bp, body.blobPath = some bp → '?' ∉ bp) →
        createItemJsonPersisted s body = some d → fileUrlNoQuery d = true) ∧
    (∀ form pk idv sfx d, '?' ∉ pk → '?' ∉ idv → '?' ∉ sfx →
        createItemMultipartPersisted s form pk idv sfx = some d →
        fileUrlNoQuery d = true) ∧
    (∀ body existing d, (∀ bp, body.blobPath = some bp → '?' ∉ bp) →
        (∀ ex bp, existing = some ex → ex.blobPath = some bp → '?' ∉ bp) →
        upsertItemPersisted s body existing = some d → fileUrlNoQuery d = true) ∧
    (∀ doc d, (∀ bp, doc.blobPath = some bp → '?' ∉ bp) →
        sanitizeDocUrls s doc = some d → fileUrlNoQuery d = true) :=
  ⟨fun _ _ hbp h => createItemJsonPersisted_noQuery hs hbp h,
   fun _ _ _ _ _ h1 h2 h3 h => createItemMultipartPersisted_noQuery hs h1 h2 h3 h,
   fun _ _ _ hbp hex h => upsertItemPersisted_noQuery hs hbp hex h,
   fun _ _ hbp h => sanitizeDocUrls_noQuery hs hbp h⟩

/-- **C9** counterexample: the JSON branch of `create_item`, handed a body
with no `fileUrl` and `blobPath = "files/x?sig=abc"`, persists
`fileUrl = "https://acct.blob.core.windows.net/files/x?sig=abc"` — the
query component of the stored path survives into the stored display URL, so
the unconditional SAS-free invariant is false. -/
theorem c9_counterexample :
    createItemJsonPersisted testS
        { blobPath := some (("files/x?sig=abc").data), fileUrl := none, rest := [] }
      = some { blobPath := some (("files/x?sig=abc").data),
               fileUrl := some (.vstr
                 (("https://acct.blob.core.windows.net/files/x?sig=abc").data)),
               rest := [] } ∧
    fileUrlNoQuery
        { blobPath := some (("files/x?sig=abc").data),
          fileUrl := some (.vstr
            (("https://acct.blob.core.windows.net/files/x?sig=abc").data)),
          rest := [] } = false :=
  ⟨by decide, by decide⟩

/-- **C9** witness: the response-sanitizer component of the amended theorem
at a concrete record carrying only a clean `blobPath`. -/
theorem c9_witness :
    fileUrlNoQuery
        { blobPath := some (("files/a.pdf").data),
          fileUrl := some (.vstr
            (("https://acct.blob.core.windows.net/files/a.pdf").data)),
          rest := [] } = true := by
  refine (c9_sas_free_urls testS (by decide)).2.2.2
    { blobPath := some (("files/a.pdf").data), fileUrl := none, rest := [] }
    _ ?_ (by decide)
  intro bp hbp
  have he : (("files/a.pdf").data) = bp := Option.some.inj hbp
  cases he
  decide

end Ryker
